import Mathlib

/-!
Shallow embedding of the shortcut-branch detector implemented in
`lib/ShortcutDetector.cpp` (pass `ShortcutDT`).  Basic blocks are identified
by natural-number ids; the dominator tree is modelled as the external oracle
it is in the source (`dominates`, `isReachableFromEntry`).  The mutable
`ChildrenSet` heap is modelled as an arena (list of records) threaded through
every operation; `new` allocations append to the arena, pointer fields become
arena indices, and `std::map` / `std::set` become association lists / lists
with membership tests.  C++ `assert` failures are modelled as `Except.error`.
-/

namespace Shortcut

/-- One LLVM instruction as inspected by `isOnlyBranch`: whether it may write
to memory, and the list of its uses, each use given as the pair
(id of the block holding the using instruction, index of the using
instruction inside that block). -/
structure Inst where
  mayWrite : Bool
  uses : List (Nat × Nat)
  deriving Repr, DecidableEq

/-- Terminator of a basic block: unconditional branch, conditional two-way
branch (`BranchInst` with two successors), or any other terminator
(return, switch, unreachable ...). -/
inductive Term where
  | br : Nat → Term
  | condbr : Nat → Nat → Term
  | other : Term
  deriving Repr, DecidableEq

/-- A basic block: id, printable name, non-terminator instruction list as
seen by `isOnlyBranch`, and terminator. -/
structure BBlock where
  bid : Nat
  bname : String
  insts : List Inst
  term : Term
  deriving Repr, DecidableEq

/-- A function: name plus its basic blocks in iteration order. -/
structure Func where
  fname : String
  blocks : List BBlock
  deriving Repr, DecidableEq

/-- The external dominance oracle (`llvm::DominatorTree`): `dominates a b`
and `isReachableFromEntry b`, both over block ids. -/
structure DomTree where
  dominates : Nat → Nat → Bool
  reachable : Nat → Bool

/-- `ShortcutDetectorPass::isTwowayBranch`: the terminator is a conditional
`BranchInst`. -/
def isTwowayBranch (bb : BBlock) : Bool :=
  match bb.term with
  | .condbr _ _ => true
  | _ => false

/-- `ShortcutDetectorPass::isJumpBack`: the edge `BB -> Target` is backward
iff `Target` dominates `BB`. -/
def isJumpBack (DT : DomTree) (bb target : Nat) : Bool :=
  DT.dominates target bb

/-- `ShortcutDetectorPass::hasBackEdge`: for a `BranchInst` test each
successor with `isJumpBack`; every non-branch terminator counts as having a
back edge. -/
def hasBackEdge (DT : DomTree) (bb : BBlock) : Bool :=
  match bb.term with
  | .br t => isJumpBack DT bb.bid t
  | .condbr t0 t1 => isJumpBack DT bb.bid t0 || isJumpBack DT bb.bid t1
  | .other => true

/-- One use `(ub, ui)` of the instruction at index `idx` of block `bbid`
violates the only-branch conditions: the use lives in another block, or it
lies at or before position `idx` in this block (the source keeps `InstMark`,
the set of instructions already iterated including the current one). -/
def useViolates (bbid idx : Nat) (u : Nat × Nat) : Bool :=
  u.1 != bbid || decide (u.2 ≤ idx)

/-- The instruction at index `idx` of block `bbid` disqualifies the block:
it may write to memory, or one of its uses violates the use conditions. -/
def instViolates (bbid idx : Nat) (i : Inst) : Bool :=
  i.mayWrite || i.uses.any (useViolates bbid idx)

/-- `ShortcutDetectorPass::isOnlyBranch`: no instruction of the block
disqualifies it (the source short-circuits on the first violation; the
result is the same). -/
def isOnlyBranch (bb : BBlock) : Bool :=
  bb.insts.enum.all (fun p => ! instViolates bb.bid p.1 p.2)

/-- Result of the block classification scan: `leafset` and `nodeset`
(`std::set<BasicBlock*>` in the source, modelled as lists of block ids in
insertion order). -/
structure ClassifyResult where
  leafset : List Nat
  nodeset : List Nat
  deriving Repr, DecidableEq

/-- Classification of one block, appended to the running result, mirroring
the loop body of `runOnFunction` lines 173-181: unreachable, non-two-way or
back-edged blocks go to `leafset`; the rest go to `nodeset`, and of those
the ones failing `isOnlyBranch` are inserted into `leafset` as well. -/
def classifyStep (DT : DomTree) (acc : ClassifyResult) (bb : BBlock) : ClassifyResult :=
  if !(DT.reachable bb.bid) || !(isTwowayBranch bb) || hasBackEdge DT bb then
    { acc with leafset := acc.leafset ++ [bb.bid] }
  else
    { leafset := if !(isOnlyBranch bb) then acc.leafset ++ [bb.bid] else acc.leafset,
      nodeset := acc.nodeset ++ [bb.bid] }

/-- The block classification scan of `runOnFunction`. -/
def classify (DT : DomTree) (F : Func) : ClassifyResult :=
  F.blocks.foldl (classifyStep DT) ⟨[], []⟩

/-- Look a block up by id in a function. -/
def blockById (F : Func) (bid : Nat) : Option BBlock :=
  F.blocks.find? (fun b => b.bid == bid)

/-- `Edge`: `fromNode` is a `ChildrenSet*` (arena index here), `toNode` a
`BasicBlock*` (block id here).  The `propgtRep`/`fixRep` annotation slots
are unused placeholders and are not modelled as data. -/
structure Edge where
  fromIdx : Nat
  toBB : Nat
  deriving Repr, DecidableEq

/-- One `ChildrenSet` object.  Pointer fields (`uplink`,
`leftchildrenset`, `rightchildrenset`) hold arena indices; `leftchildBB`,
`rightchildBB`, `myBB` hold block ids; `NULL` becomes `none` (or `[]` for
the owned containers).  `momLchild` is the flag set together with `uplink`
by `setUplink` and read by `isMomLchild`. -/
structure ChainNode where
  myBB : Nat
  level : Nat
  head : Bool
  haveSC : Bool
  isleftSC : Bool
  isrightSC : Bool
  uplink : Option Nat
  momLchild : Bool
  nummidnodes : Nat
  SCmidnodeset : List Nat
  leftchildBB : Option Nat
  rightchildBB : Option Nat
  leftchildrenset : Option Nat
  rightchildrenset : Option Nat
  SCnum : Nat
  out0 : Option Edge
  out1 : Option Edge
  inEdges : List Edge
  mySCpath : List Bool
  deriving Repr, DecidableEq

instance : Inhabited ChainNode :=
  ⟨⟨0, 0, false, false, false, false, none, false, 0, [], none, none, none,
    none, 0, none, none, [], []⟩⟩

/-- Read an arena slot (dereference a `ChildrenSet*`). -/
def getNode (a : List ChainNode) (i : Nat) : ChainNode :=
  a.getD i default

/-- Overwrite an arena slot (mutate a `ChildrenSet` object in place). -/
def setNode (a : List ChainNode) (i : Nat) (n : ChainNode) : List ChainNode :=
  a.set i n

/-- `ChildrenSet::init`: fresh node for block `thisBB` with
`level = MAX(leftlevel, rightlevel) + 1` and every other field cleared. -/
def initNode (thisBB leftlevel rightlevel : Nat) : ChainNode :=
  { myBB := thisBB, level := max leftlevel rightlevel + 1,
    head := false, haveSC := false, isleftSC := false, isrightSC := false,
    uplink := none, momLchild := false, nummidnodes := 0, SCmidnodeset := [],
    leftchildBB := none, rightchildBB := none, leftchildrenset := none,
    rightchildrenset := none, SCnum := 0, out0 := none, out1 := none,
    inEdges := [], mySCpath := [] }

/-- `ChildrenSet::setUplink`: record the BFS parent and whether this node is
its parent's left child. -/
def setUplink (a : List ChainNode) (i parent : Nat) (isLeft : Bool) : List ChainNode :=
  setNode a i { getNode a i with uplink := some parent, momLchild := isLeft }

/-- `ChildrenSet::invalidateHead`: clear the `head` flag. -/
def invalidateHead (a : List ChainNode) (i : Nat) : List ChainNode :=
  setNode a i { getNode a i with head := false }

/-- One child examination inside the BFS loop of `ChildrenSet::isShortcut`
(for a `leftchildrenset`/`rightchildrenset` child of the current node):
skip a marked child; `break` with the current node as `findMidnode` when
the child's block is the key; otherwise set the child's uplink and push and
mark it.  `Sum.inr` is the `break`, carrying the updated `*lastLeft`. -/
def bfsChild (key cur : Nat) (isLeft : Bool) (childO : Option Nat)
    (a : List ChainNode) (wl marked : List Nat) :
    (List ChainNode × List Nat × List Nat) ⊕ (List ChainNode × Nat × Int) :=
  match childO with
  | none => .inl (a, wl, marked)
  | some c =>
    if marked.contains c then .inl (a, wl, marked)
    else if (getNode a c).myBB = key then
      .inr (a, cur, if isLeft then 1 else -1)
    else .inl (setUplink a c cur isLeft, wl ++ [c], marked ++ [c])

/-- `ChildrenSet::isShortcut`: breadth-first search of the tree rooted in
the worklist for a node pointing at block `key`; returns the mutated arena
and, on success, `findMidnode` together with `*lastLeft` (`1` left,
`-1` right).  The worklist loop is driven by fuel; callers pass
`arena length + 1`, which the marking discipline never exhausts. -/
def isShortcutFuel (key : Nat) :
    Nat → List ChainNode → List Nat → List Nat →
    List ChainNode × Option (Nat × Int)
  | 0, a, _, _ => (a, none)
  | _ + 1, a, [], _ => (a, none)
  | fuel + 1, a, cur :: rest, marked =>
    if (getNode a cur).leftchildBB = some key then (a, some (cur, 1))
    else if (getNode a cur).rightchildBB = some key then (a, some (cur, -1))
    else
      match bfsChild key cur true (getNode a cur).leftchildrenset
          a rest marked with
      | .inr (a', mid, ll) => (a', some (mid, ll))
      | .inl (a1, wl1, mk1) =>
        match bfsChild key cur false (getNode a cur).rightchildrenset
            a1 wl1 mk1 with
        | .inr (a', mid, ll) => (a', some (mid, ll))
        | .inl (a2, wl2, mk2) => isShortcutFuel key fuel a2 wl2 mk2

/-- The `while (findMidnode != pathstart)` loop of `ChildrenSet::getmySCpath`:
prepend `isMomLchild` of each visited node while following `getUplink` up to
`pathstart`, counting nodes; a null uplink is the assertion failure of the
source (fuel exhaustion stands for the non-terminating walk that a cyclic
uplink chain would produce, equally impossible). -/
def scPathWalk (a : List ChainNode) (pathstart : Nat) :
    Nat → Nat → List Bool → Nat → Except String (List Bool × Nat)
  | 0, mid, path, count =>
    if mid = pathstart then .ok (path, count)
    else .error "Error: walk fuel exhausted"
  | fuel + 1, mid, path, count =>
    if mid = pathstart then .ok (path, count)
    else
      match (getNode a mid).uplink with
      | none => .error "Error:getUplink should not be null!"
      | some j =>
        scPathWalk a pathstart fuel j ((getNode a mid).momLchild :: path)
          (count + 1)

/-- `ChildrenSet::getmySCpath`: asserts `lastLeft` was set, seeds the path
with `islastLeft` and the midnode count with 1 (`myself`), then walks the
uplink chain from `findMidnode` to `pathstart`.  Returns
(`*mySCpath`, `*mynummidnodes`). -/
def getmySCpath (a : List ChainNode) (findMidnode pathstart : Nat) (lastLeft : Int) :
    Except String (List Bool × Nat) :=
  if lastLeft = 0 then .error "Error:lastLeft was not set"
  else scPathWalk a pathstart (a.length + 1) findMidnode [decide (lastLeft = 1)] 1

/-- `ChildrenSet::ChildrenSetInsert`: insert into the set if absent
(sets are lists in first-insertion order). -/
def ChildrenSetInsert (s : List Nat) (e : Nat) : List Nat :=
  if s.contains e then s else s ++ [e]

/-- `ChildrenSet::ChildrenSetUnion`: insert every element of the operand
missing from the sum. -/
def ChildrenSetUnion (s t : List Nat) : List Nat :=
  t.foldl ChildrenSetInsert s

/-- Absorption of the final node (`pathstart`) at loop exit of
`getallmidnodeset`: count the own shortcut (`totalSC++`), and if the node
is a head invalidate it, union in its midnode set and add its count;
finally insert the node itself. -/
def midsetStop (a : List ChainNode) (mid : Nat) (set : List Nat)
    (totalSC : Nat) : List ChainNode × List Nat × Nat :=
  if (getNode a mid).head then
    (invalidateHead a mid,
     ChildrenSetInsert (ChildrenSetUnion set (getNode a mid).SCmidnodeset) mid,
     totalSC + 1 + (getNode a mid).SCnum)
  else (a, ChildrenSetInsert set mid, totalSC + 1)

/-- The walk of `ChildrenSet::getallmidnodeset`: from `findMidnode` up to
`pathstart`, absorbing every node met — a node that is a head is
invalidated, its shortcut count added and its midnode set unioned in — and
inserting the node itself; reaching `pathstart` ends with `midsetStop`.
A null uplink is the assertion failure of the source.  Returns the
mutated arena, `allmidnodeset` and `*totalSCnum`. -/
def midsetWalk (pathstart : Nat) :
    Nat → List ChainNode → Nat → List Nat → Nat →
    Except String (List ChainNode × List Nat × Nat)
  | 0, a, mid, set, totalSC =>
    if mid = pathstart then .ok (midsetStop a mid set totalSC)
    else .error "Error: walk fuel exhausted"
  | fuel + 1, a, mid, set, totalSC =>
    if mid = pathstart then .ok (midsetStop a mid set totalSC)
    else
      match (getNode a mid).uplink with
      | none => .error "Error:getUplink should not be null!"
      | some j =>
        midsetWalk pathstart fuel
          (if (getNode a mid).head then invalidateHead a mid else a) j
          (ChildrenSetInsert
            (if (getNode a mid).head then
              ChildrenSetUnion set (getNode a mid).SCmidnodeset
             else set) mid)
          (if (getNode a mid).head then totalSC + (getNode a mid).SCnum
           else totalSC)

/-- `ChildrenSet::getallmidnodeset` entry point. -/
def getallmidnodeset (a : List ChainNode) (findMidnode pathstart : Nat) :
    Except String (List ChainNode × List Nat × Nat) :=
  midsetWalk pathstart (a.length + 1) a findMidnode [] 0

/-- `ChildrenSet::ChildrenSet(BasicBlock*, BasicBlock*, BasicBlock*)`:
both children are leaves; `init(thisBB, 0, 0)` then record the two leaf
blocks.  No shortcut search happens in this shape. -/
def mkLeafLeaf (thisBB leftleaf rightleaf : Nat) : ChainNode :=
  { initNode thisBB 0 0 with
    leftchildBB := some leftleaf, rightchildBB := some rightleaf }

/-- Shared tail of the three shortcut-detecting constructors: given the
search result, compute `mySCpath` and the absorbed midnode set and fill the
head fields (`head`, `haveSC`, the side flag) of the node under
construction. -/
def applyShortcut (a : List ChainNode) (base : ChainNode) (isLeft : Bool)
    (findMidnode pathstart : Nat) (lastLeft : Int) :
    Except String (List ChainNode × ChainNode) :=
  match getmySCpath a findMidnode pathstart lastLeft with
  | .error e => .error e
  | .ok (path, numm) =>
    match getallmidnodeset a findMidnode pathstart with
    | .error e => .error e
    | .ok (a', mids, scn) =>
      .ok (a', { base with
                 head := true, haveSC := true,
                 isleftSC := if isLeft then true else base.isleftSC,
                 isrightSC := if isLeft then base.isrightSC else true,
                 mySCpath := path, nummidnodes := numm,
                 SCmidnodeset := mids, SCnum := scn })

/-- `ChildrenSet::ChildrenSet(BasicBlock*, BasicBlock*, ChildrenSet*)`:
left child a leaf, right child a built node; searches the right subtree for
the left leaf and, on a match, marks a shortcut on the left child. -/
def mkLeafChain (a : List ChainNode) (thisBB leftleaf rIdx : Nat) :
    Except String (List ChainNode × ChainNode) :=
  let base := { initNode thisBB 0 (getNode a rIdx).level with
                leftchildBB := some leftleaf, rightchildrenset := some rIdx }
  match isShortcutFuel leftleaf (a.length + 1) a [rIdx] [rIdx] with
  | (a1, none) => .ok (a1, base)
  | (a1, some (mid, ll)) => applyShortcut a1 base true mid rIdx ll

/-- `ChildrenSet::ChildrenSet(BasicBlock*, ChildrenSet*, BasicBlock*)`:
left child a built node, right child a leaf; searches the left subtree for
the right leaf and, on a match, marks a shortcut on the right child. -/
def mkChainLeaf (a : List ChainNode) (thisBB : Nat) (lIdx rightleaf : Nat) :
    Except String (List ChainNode × ChainNode) :=
  let base := { initNode thisBB (getNode a lIdx).level 0 with
                leftchildrenset := some lIdx, rightchildBB := some rightleaf }
  match isShortcutFuel rightleaf (a.length + 1) a [lIdx] [lIdx] with
  | (a1, none) => .ok (a1, base)
  | (a1, some (mid, ll)) => applyShortcut a1 base false mid lIdx ll

/-- First half of the chain/chain constructor: the search of the right
subtree for the left child's block and, on a match, the left-shortcut
field assignments. -/
def mkChainChainFirst (a : List ChainNode) (base : ChainNode) (rIdx key : Nat) :
    Except String (List ChainNode × ChainNode) :=
  match isShortcutFuel key (a.length + 1) a [rIdx] [rIdx] with
  | (a1, none) => .ok (a1, base)
  | (a1, some (mid, ll)) => applyShortcut a1 base true mid rIdx ll

/-- `ChildrenSet::ChildrenSet(BasicBlock*, ChildrenSet*, ChildrenSet*)`:
both children built nodes; searches the right subtree for the left child's
block, then the left subtree for the right child's block.  A second match
on top of a first one is the fatal
`assert(!haveSC && "ERROR, one BB could not have two shortcuts on both children!")`. -/
def mkChainChain (a : List ChainNode) (thisBB : Nat) (lIdx rIdx : Nat) :
    Except String (List ChainNode × ChainNode) :=
  let base := { initNode thisBB (getNode a lIdx).level (getNode a rIdx).level with
                leftchildrenset := some lIdx, rightchildrenset := some rIdx }
  match mkChainChainFirst a base rIdx (getNode a lIdx).myBB with
  | .error e => .error e
  | .ok (a1, node1) =>
    match isShortcutFuel (getNode a1 rIdx).myBB (a1.length + 1) a1 [lIdx] [lIdx] with
    | (b1, none) => .ok (b1, node1)
    | (b1, some (mid2, ll2)) =>
      if node1.haveSC then
        .error "ERROR, one BB could not have two shortcuts on both children!"
      else applyShortcut b1 node1 false mid2 lIdx ll2

/-- The per-function build state: the `ChildrenSet` heap (which in the
source is the process heap, so it persists across functions) and the local
`SCSetMap` from block ids to arena indices. -/
structure BuildState where
  arena : List ChainNode
  scmap : List (Nat × Nat)
  deriving Repr, DecidableEq

/-- `SCSetMap.count(k) > 0`. -/
def mapHas (m : List (Nat × Nat)) (k : Nat) : Bool :=
  m.any (fun p => p.1 == k)

/-- `(*(SCSetMap.find(k))).second`; combined with the preceding
`count(k) > 0` checks of the source into a single first-entry lookup. -/
def mapFind (m : List (Nat × Nat)) (k : Nat) : Option Nat :=
  (m.find? (fun p => p.1 == k)).map (fun p => p.2)

/-- Append a freshly constructed `ChildrenSet` to the heap and map its
block to it (`SCSetMap.insert`). -/
def pushNode (st : BuildState) (bbid : Nat) (a : List ChainNode)
    (node : ChainNode) : BuildState :=
  ⟨a ++ [node], st.scmap ++ [(bbid, a.length)]⟩

/-- The body of the `for` loop of `ShortcutDetectorPass::conSCSetMap` for
one candidate block: skip blocks already mapped; otherwise read the two
branch successors and build a `ChildrenSet` in one of the four shapes when
each successor is either in the leaf set (checked first) or already mapped.
Returns whether a node was constructed (`changed`). -/
def resolveNode (leafset : List Nat) (F : Func) (st : BuildState) (bbid : Nat) :
    Except String (BuildState × Bool) :=
  if mapHas st.scmap bbid then .ok (st, false)
  else
    match blockById F bbid with
    | none => .ok (st, false)
    | some blk =>
      match blk.term with
      | .condbr leftChild rightChild =>
        if leafset.contains leftChild then
          if leafset.contains rightChild then
            .ok (pushNode st bbid st.arena (mkLeafLeaf bbid leftChild rightChild), true)
          else
            match mapFind st.scmap rightChild with
            | some rIdx =>
              match mkLeafChain st.arena bbid leftChild rIdx with
              | .error e => .error e
              | .ok (a', node) => .ok (pushNode st bbid a' node, true)
            | none => .ok (st, false)
        else
          match mapFind st.scmap leftChild with
          | some lIdx =>
            if leafset.contains rightChild then
              match mkChainLeaf st.arena bbid lIdx rightChild with
              | .error e => .error e
              | .ok (a', node) => .ok (pushNode st bbid a' node, true)
            else
              match mapFind st.scmap rightChild with
              | some rIdx =>
                match mkChainChain st.arena bbid lIdx rIdx with
                | .error e => .error e
                | .ok (a', node) => .ok (pushNode st bbid a' node, true)
              | none => .ok (st, false)
          | none => .ok (st, false)
      | _ => .ok (st, false)

/-- One full scan over the candidate set (`for` loop of `conSCSetMap`),
accumulating the `changed` flag.  The source iterates a pointer-ordered
`std::set`; the embedding fixes the classifier's insertion order, one
admissible iteration order. -/
def scanNodes (leafset : List Nat) (F : Func) :
    List Nat → BuildState → Bool → Except String (BuildState × Bool)
  | [], st, ch => .ok (st, ch)
  | bbid :: rest, st, ch =>
    match resolveNode leafset F st bbid with
    | .error e => .error e
    | .ok (st', c) => scanNodes leafset F rest st' (ch || c)

/-- The `do { ... } while (changed)` fixpoint loop of `conSCSetMap`,
driven by fuel. -/
def chainLoop (leafset nodeset : List Nat) (F : Func) :
    Nat → BuildState → Except String BuildState
  | 0, st => .ok st
  | fuel + 1, st =>
    match scanNodes leafset F nodeset st false with
    | .error e => .error e
    | .ok (st', changed) =>
      if changed then chainLoop leafset nodeset F fuel st' else .ok st'

/-- `ShortcutDetectorPass::conSCSetMap`: run the fixpoint loop starting
from an empty map; `candidate count + 1` scans always suffice (each scan
but the last adds a map entry). -/
def conSCSetMap (leafset nodeset : List Nat) (F : Func)
    (a0 : List ChainNode) : Except String BuildState :=
  chainLoop leafset nodeset F (nodeset.length + 1) ⟨a0, []⟩

/-- `ChildrenSet::verify_domination`: the head's block must dominate the
block of every node of its `SCmidnodeset`. -/
def verify_domination (DT : DomTree) (a : List ChainNode) (i : Nat) : Bool :=
  (getNode a i).SCmidnodeset.all
    (fun m => DT.dominates (getNode a i).myBB (getNode a m).myBB)

/-- The body of `ShortcutDetectorPass::BuildHeadNodeList` for one block:
a mapped head is appended to `HeadNodeList` when it passes
`verify_domination` and otherwise only bumps `localFailed`. -/
def buildHeadStep (DT : DomTree) (st : BuildState)
    (acc : List Nat × Nat) (bb : BBlock) : List Nat × Nat :=
  match mapFind st.scmap bb.bid with
  | some idx =>
    if (getNode st.arena idx).head then
      if verify_domination DT st.arena idx then (acc.1 ++ [idx], acc.2)
      else (acc.1, acc.2 + 1)
    else acc
  | none => acc

/-- `ShortcutDetectorPass::BuildHeadNodeList`: scan the function's blocks
in order, extending the (pass-level, never cleared) `HeadNodeList` and the
`localFailed` counter. -/
def BuildHeadNodeList (DT : DomTree) (F : Func) (st : BuildState)
    (hl : List Nat) (failed : Nat) : List Nat × Nat :=
  F.blocks.foldl (buildHeadStep DT st) (hl, failed)

/-- Record edge `e` as the out-edge slot 0 of node `i`
(`out0 = new Edge(...)`). -/
def setOut0 (a : List ChainNode) (i : Nat) (e : Edge) : List ChainNode :=
  setNode a i { getNode a i with out0 := some e }

/-- Record edge `e` as the out-edge slot 1 of node `i`. -/
def setOut1 (a : List ChainNode) (i : Nat) (e : Edge) : List ChainNode :=
  setNode a i { getNode a i with out1 := some e }

/-- `ChildrenSet::addinEdges` guarded by the midnode-set test of
`conEdgeGraph`: append `e` to node `c`'s in-edges when `c` is inside the
head's midnode set. -/
def addInEdgeIfIn (a : List ChainNode) (c : Nat) (midset : List Nat)
    (e : Edge) : List ChainNode :=
  if midset.contains c then
    setNode a c { getNode a c with inEdges := (getNode a c).inEdges ++ [e] }
  else a

/-- The `out0` half of `ChildrenSet::conEdgeGraph`: a leaf left child gives
the edge directly; a `ChildrenSet` left child gives an edge to its block,
recorded as its in-edge when in scope.  Both child fields null cannot
happen for constructed nodes and leaves the arena unchanged. -/
def edgeLeftSide (a : List ChainNode) (i : Nat) (midset : List Nat) :
    List ChainNode :=
  match (getNode a i).leftchildBB, (getNode a i).leftchildrenset with
  | some lb, _ => setOut0 a i ⟨i, lb⟩
  | none, some lc =>
    addInEdgeIfIn (setOut0 a i ⟨i, (getNode a lc).myBB⟩) lc midset
      ⟨i, (getNode a lc).myBB⟩
  | none, none => a

/-- The `out1` half of `ChildrenSet::conEdgeGraph`. -/
def edgeRightSide (a : List ChainNode) (i : Nat) (midset : List Nat) :
    List ChainNode :=
  match (getNode a i).rightchildBB, (getNode a i).rightchildrenset with
  | some rb, _ => setOut1 a i ⟨i, rb⟩
  | none, some rc =>
    addInEdgeIfIn (setOut1 a i ⟨i, (getNode a rc).myBB⟩) rc midset
      ⟨i, (getNode a rc).myBB⟩
  | none, none => a

/-- `ChildrenSet::conEdgeGraph`: build the two outgoing edges of node `i`
(the destination of a child `ChildrenSet` is its own block) and append an
in-edge on each child `ChildrenSet` lying inside `midnodeset`. -/
def nodeConEdgeGraph (a : List ChainNode) (i : Nat) (midset : List Nat) :
    List ChainNode :=
  edgeRightSide (edgeLeftSide a i midset) i midset

/-- The worklist after one node of `ShortcutDetectorPass::conEdgeGraph`:
push the child `ChildrenSet`s lying inside the head's midnode set, left
then right. -/
def edgePush (node : ChainNode) (midset : List Nat) (wl : List Nat) :
    List Nat :=
  match node.leftchildrenset, node.rightchildrenset with
  | some lc, some rc =>
    (if midset.contains lc then wl ++ [lc] else wl) ++
      (if midset.contains rc then [rc] else [])
  | some lc, none => if midset.contains lc then wl ++ [lc] else wl
  | none, some rc => if midset.contains rc then wl ++ [rc] else wl
  | none, none => wl

/-- The worklist loop of `ShortcutDetectorPass::conEdgeGraph` for one head:
pop, build edges for unmarked nodes, push the in-scope children. -/
def edgeBFS (midset : List Nat) :
    Nat → List ChainNode → List Nat → List Nat → List ChainNode
  | 0, a, _, _ => a
  | _ + 1, a, [], _ => a
  | fuel + 1, a, cur :: rest, marked =>
    if marked.contains cur then edgeBFS midset fuel a rest marked
    else
      edgeBFS midset fuel (nodeConEdgeGraph a cur midset)
        (edgePush (getNode (nodeConEdgeGraph a cur midset) cur) midset rest)
        (marked ++ [cur])

/-- `ShortcutDetectorPass::conEdgeGraph`: run the worklist for every head
of `HeadNodeList` (each head's `SCmidnodeset` is read up front). -/
def conEdgeGraph (a : List ChainNode) (hl : List Nat) : List ChainNode :=
  hl.foldl (fun a h => edgeBFS (getNode a h).SCmidnodeset (2 * a.length + 2) a [h] []) a

/-- `listtos`: render a midnode path, `L` for left, `R` for right. -/
def listtos (path : List Bool) : String :=
  path.foldl (fun s b => s ++ (if b then "L" else "R")) ""

/-- Modelled from the spec: the renderer of the `Rep` annotation slots
(`Edge::dump(Rep*)`) lives only in the missing header; the spec calls the
two slots "reserved ... otherwise unused placeholders", so their text is an
uninterpreted constant. -/
def repDumpText : String := "()"

/-- `Edge::dump`: `prefix  Edge(from->to) propgtRep:..;fixRep:..`.
`nm` is the host's block-name lookup (`BasicBlock::getName`). -/
def edgeDump (nm : Nat → String) (a : List ChainNode) (e : Edge)
    (pre : String) : String :=
  pre ++ "  Edge(" ++ nm (getNode a e.fromIdx).myBB ++ "->" ++ nm e.toBB ++ ") "
    ++ "propgtRep:" ++ repDumpText ++ ";" ++ "fixRep:" ++ repDumpText ++ "\n"

/-- `ChildrenSet::dump(prefix, midNodesforthisSet, thissetHead)`: one line
for the node itself; for the head and for in-scope midnodes also the two
edge lines and the children (leaf name lines or recursive dumps).  The
recursion is fuel-driven; `arena length + 1` covers every chain tree. -/
def dumpNode (nm : Nat → String) (a : List ChainNode) (midset : List Nat)
    (headIdx : Nat) : Nat → Nat → String → String
  | 0, _, _ => ""
  | fuel + 1, i, pre =>
    let node := getNode a i
    let s := pre ++ "-" ++ nm node.myBB ++ " L(" ++ toString node.level ++ ")"
      ++ (if node.head then " (Head)" else "")
      ++ (if node.haveSC then " (haveSC) path(" ++ listtos node.mySCpath ++ ")" else "")
      ++ (if node.isleftSC then " (isleftSC)" else "")
      ++ (if node.isrightSC then " (isrightSC)" else "") ++ "\n"
    if headIdx = i || midset.contains i then
      let s := s ++ (match node.out0 with
        | some e => edgeDump nm a e pre | none => "")
        ++ (match node.out1 with
        | some e => edgeDump nm a e pre | none => "")
      let s := s ++ (match node.leftchildBB, node.leftchildrenset with
        | some lb, _ => pre ++ " |" ++ nm lb ++ " (leaf)\n"
        | none, some lc => dumpNode nm a midset headIdx fuel lc (pre ++ " |")
        | none, none => "")
      s ++ (match node.rightchildBB, node.rightchildrenset with
        | some rb, _ => pre ++ "  " ++ nm rb ++ " (leaf)\n"
        | none, some rc => dumpNode nm a midset headIdx fuel rc (pre ++ "  ")
        | none, none => "")
    else s

/-- `ChildrenSet::dump()` (head entry point): banner plus the recursive
dump scoped to the head's own `SCmidnodeset`. -/
def dumpHead (nm : Nat → String) (a : List ChainNode) (i : Nat) : String :=
  "----Dump start from " ++ nm (getNode a i).myBB ++ "------\n"
    ++ dumpNode nm a (getNode a i).SCmidnodeset i (a.length + 1) i " " ++ "\n"

/-- The counters touched by the Reporter: the two global `STATISTIC`s and
the per-function members of the pass. -/
structure Counters where
  numShortcut : Nat
  numShortcutSet : Nat
  localshortcut : Nat
  localSCset : Nat
  localFailed : Nat
  deriving Repr, DecidableEq

/-- The tree text printed by `dumpShortcut`: the dump of every head on the
list, in list order. -/
def shortcutTreeText (nm : Nat → String) (a : List ChainNode)
    (hl : List Nat) : String :=
  hl.foldl (fun s i => s ++ dumpHead nm a i) ""

/-- The counter updates of `dumpShortcut` for one head: `NumShortcut` and
`localshortcut` grow by the head's `getSCnum()`, the set counters by
one. -/
def dumpStep (a : List ChainNode) (c : Counters) (i : Nat) : Counters :=
  { c with numShortcut := c.numShortcut + (getNode a i).SCnum,
           localshortcut := c.localshortcut + (getNode a i).SCnum,
           localSCset := c.localSCset + 1,
           numShortcutSet := c.numShortcutSet + 1 }

/-- The counter updates of `dumpShortcut` over the whole head list. -/
def dumpShortcutCounters (a : List ChainNode) (hl : List Nat)
    (c : Counters) : Counters :=
  hl.foldl (dumpStep a) c

/-- The three `local ...` summary lines printed at the end of
`dumpShortcut`. -/
def localLines (c : Counters) : String :=
  "local shortcut number: " ++ toString c.localshortcut ++ "\n"
    ++ "local shortcut sets (nested if): " ++ toString c.localSCset ++ "\n"
    ++ "local sets that failed domination Verify:" ++ toString c.localFailed
    ++ "\n\n\n"

/-- `ShortcutDetectorPass::dumpShortcut`: dump every head of the list,
update the counters, then print the local summary lines. -/
def dumpShortcut (nm : Nat → String) (a : List ChainNode) (hl : List Nat)
    (c : Counters) : String × Counters :=
  let c' := dumpShortcutCounters a hl c
  (shortcutTreeText nm a hl ++ localLines c', c')

/-- The state a `ShortcutDetectorPass` object carries across
`runOnFunction` calls: the `ChildrenSet` heap (never freed), the
`HeadNodeList` member (never cleared by the source) and the counters. -/
structure PassState where
  arena : List ChainNode
  headNodeList : List Nat
  counters : Counters
  deriving Repr, DecidableEq

/-- The pass state at registration: empty heap, empty head list, zero
counters. -/
def initPassState : PassState := ⟨[], [], ⟨0, 0, 0, 0, 0⟩⟩

/-- `ShortcutDetectorPass::runOnFunction`: reset the local counters,
classify the blocks, build the chain map, extend `HeadNodeList` with this
function's verified heads (`ClearUselessNodesin` has an empty body), build
the edge graph and report.  Returns the new pass state and the printed
text (the function banner plus the reporter output; the `Jing_DEBUG`
set dumps are omitted from the text model). -/
def runOnFunction (nm : Nat → String) (DT : DomTree) (F : Func)
    (ps : PassState) : Except String (PassState × String) :=
  let c0 := { ps.counters with localshortcut := 0, localSCset := 0, localFailed := 0 }
  let cls := classify DT F
  match conSCSetMap cls.leafset cls.nodeset F ps.arena with
  | .error e => .error e
  | .ok st =>
    let (hl, failed) := BuildHeadNodeList DT F st ps.headNodeList c0.localFailed
    let c1 := { c0 with localFailed := failed }
    let a2 := conEdgeGraph st.arena hl
    let (txt, c2) := dumpShortcut nm a2 hl c1
    .ok (⟨a2, hl, c2⟩,
         "**********func: " ++ F.fname ++ " ********\n" ++ txt)

/-- Run the pass over a sequence of functions, as the host pass manager
does, threading the single pass object's state. -/
def runAll (nm : Nat → String) :
    List (DomTree × Func) → PassState → Except String (PassState × String)
  | [], ps => .ok (ps, "")
  | (DT, F) :: rest, ps =>
    match runOnFunction nm DT F ps with
    | .error e => .error e
    | .ok (ps1, t1) =>
      match runAll nm rest ps1 with
      | .error e => .error e
      | .ok (ps2, t2) => .ok (ps2, t1 ++ t2)

/-! ### Concrete inputs used by counterexamples and witnesses -/

/-- Scenario-B function: `B0` (id 0) branches to (`B1`, `L`), `B1` (id 1)
branches to (`L`, `R`); `L` (2) and `R` (3) return. -/
def FB : Func :=
  ⟨"fB",
   [⟨0, "B0", [], .condbr 1 2⟩,
    ⟨1, "B1", [], .condbr 2 3⟩,
    ⟨2, "L", [], .other⟩,
    ⟨3, "R", [], .other⟩]⟩

/-- Dominator oracle for `FB`: the entry `B0` dominates everything, every
block dominates itself, and `B1` dominates `R`. -/
def DTB : DomTree :=
  ⟨fun a b => a == 0 || a == b || (a == 1 && b == 3), fun _ => true⟩

/-- A second function of the same shape on fresh ids 10-13. -/
def FB2 : Func :=
  ⟨"fC",
   [⟨10, "C0", [], .condbr 11 12⟩,
    ⟨11, "C1", [], .condbr 12 13⟩,
    ⟨12, "M", [], .other⟩,
    ⟨13, "S", [], .other⟩]⟩

/-- Dominator oracle for `FB2`. -/
def DTB2 : DomTree :=
  ⟨fun a b => a == 10 || a == b || (a == 11 && b == 13), fun _ => true⟩

/-- Block names of the example functions. -/
def nmEx : Nat → String := fun i =>
  if i < 4 then ["B0", "B1", "L", "R"].getD i "?"
  else ["C0", "C1", "M", "S"].getD (i - 10) "?"

/-- A function whose entry block `A` (id 0) is reachable, two-way branching
and back-edge-free but writes memory, so it fails `isOnlyBranch`. -/
def FA : Func :=
  ⟨"fA",
   [⟨0, "A", [⟨true, []⟩], .condbr 1 2⟩,
    ⟨1, "L", [], .other⟩,
    ⟨2, "R", [], .other⟩]⟩

/-- Dominator oracle for `FA`. -/
def DTA : DomTree := ⟨fun a b => a == 0 || a == b, fun _ => true⟩

/-- The chain map built for scenario B (arena index 0 is `B1`'s leaf/leaf
node, index 1 is `B0`'s node). -/
def sbBuild : BuildState :=
  (conSCSetMap (classify DTB FB).leafset (classify DTB FB).nodeset FB
    []).toOption.getD ⟨[], []⟩

/-- The pass state after analyzing scenario B from a fresh pass. -/
def sbRunPS : PassState :=
  ((runOnFunction nmEx DTB FB initPassState).toOption.getD
    (initPassState, "")).1

/-- The pass state after analyzing `FB` and then `FB2` with one pass
object. -/
def twoRunPS : PassState :=
  ((runAll nmEx [(DTB, FB), (DTB2, FB2)] initPassState).toOption.getD
    (initPassState, "")).1

/-- The pass state after analyzing only `FB2` from a fresh pass. -/
def f2RunPS : PassState :=
  ((runOnFunction nmEx DTB2 FB2 initPassState).toOption.getD
    (initPassState, "")).1

/-- A hand-built two-node arena in which each node's left leaf is the other
node's block, so that both shortcut searches of a chain/chain construction
over it match. -/
def aXY : List ChainNode :=
  [{ initNode 1 0 0 with leftchildBB := some 2, rightchildBB := some 5 },
   { initNode 2 0 0 with leftchildBB := some 1, rightchildBB := some 6 }]

/-- The arena indices that `BuildHeadNodeList` examines as heads: for each
function block in order, the mapped `ChildrenSet` if any, kept when its
`head` flag is set. -/
def headCandidates (F : Func) (st : BuildState) : List Nat :=
  (F.blocks.filterMap (fun bb => mapFind st.scmap bb.bid)).filter
    (fun idx => (getNode st.arena idx).head)


/-- The build state after the first full scan of scenario B's candidate
set from an empty map (only `B1`'s leaf/leaf node is constructible). -/
def sbScan1 : BuildState :=
  ((scanNodes [2, 3] FB [0, 1] ⟨[], []⟩ false).toOption.getD
    (⟨[], []⟩, false)).1


/-- Componentwise sum of two counter records. -/
def addCounters (c d : Counters) : Counters :=
  ⟨c.numShortcut + d.numShortcut, c.numShortcutSet + d.numShortcutSet,
   c.localshortcut + d.localshortcut, c.localSCset + d.localSCset,
   c.localFailed + d.localFailed⟩

/-- All-zero counters. -/
def zeroCounters : Counters := ⟨0, 0, 0, 0, 0⟩


/-- No node of the arena carries a detected shortcut on both children. -/
def noDouble (a : List ChainNode) : Prop :=
  ∀ n ∈ a, ¬(n.isleftSC = true ∧ n.isrightSC = true)


/-- The pass state and output of running the pass on scenario B alone
through the driver. -/
def sbAllPS : PassState :=
  ((runAll nmEx [(DTB, FB)] initPassState).toOption.getD
    (initPassState, "")).1

/-- The output text of running the pass on scenario B alone through the
driver. -/
def sbAllOut : String :=
  ((runAll nmEx [(DTB, FB)] initPassState).toOption.getD
    (initPassState, "")).2


/-- Every `ChildrenSet` child pointer of the arena is a valid arena index
(executable form, over the nodes of the list). -/
def childrenValidB (a : List ChainNode) : Bool :=
  a.all (fun n =>
    (match n.leftchildrenset with
     | some j => decide (j < a.length)
     | none => true) &&
    (match n.rightchildrenset with
     | some j => decide (j < a.length)
     | none => true))

/-- Every child pointer read through `getNode` is a valid arena index. -/
def childrenValid (a : List ChainNode) : Prop :=
  ∀ i j, ((getNode a i).leftchildrenset = some j → j < a.length) ∧
    ((getNode a i).rightchildrenset = some j → j < a.length)


/-- A followable uplink path: `UpPath a root x l` means `l` lists the
nodes from `x` up to `root`, each non-root node's `uplink` pointing at the
next. -/
inductive UpPath (a : List ChainNode) (root : Nat) : Nat → List Nat → Prop
  where
  | refl : UpPath a root root [root]
  | step {i j : Nat} {l : List Nat} : i ≠ root →
      (getNode a i).uplink = some j → UpPath a root j l →
      UpPath a root i (i :: l)


/-- The invariant of the breadth-first search of `ChildrenSet::isShortcut`:
worklist entries are marked, the root is marked, marks are distinct valid
indices, and every marked node has a duplicate-free uplink path to the
root running through marked nodes. -/
structure BfsInv (a : List ChainNode) (root : Nat) (wl marked : List Nat) :
    Prop where
  wlSub : ∀ x ∈ wl, x ∈ marked
  rootMem : root ∈ marked
  markedNodup : marked.Nodup
  markedLt : ∀ x ∈ marked, x < a.length
  reach : ∀ x ∈ marked,
    ∃ l, UpPath a root x l ∧ l.Nodup ∧ ∀ y ∈ l, y ∈ marked


/-- The one-node arena of scenario B's chain/leaf construction: `B1`'s
leaf/leaf node. -/
def wArena : List ChainNode := [mkLeafLeaf 1 2 3]


/-! ### Classification lemmas (claim C2) -/

theorem mem_classifyStep_left (DT : DomTree) (acc : ClassifyResult)
    (bb : BBlock) {x : Nat} (hx : x ∈ acc.leafset) :
    x ∈ (classifyStep DT acc bb).leafset := by
  unfold classifyStep
  split
  · simp only [List.mem_append]; exact Or.inl hx
  · dsimp only
    split
    · simp only [List.mem_append]; exact Or.inl hx
    · exact hx

theorem mem_classifyStep_right (DT : DomTree) (acc : ClassifyResult)
    (bb : BBlock) {x : Nat} (hx : x ∈ acc.nodeset) :
    x ∈ (classifyStep DT acc bb).nodeset := by
  unfold classifyStep
  split
  · exact hx
  · simp only [List.mem_append]; exact Or.inl hx

theorem mem_classifyFold_left (DT : DomTree) :
    ∀ (bs : List BBlock) (acc : ClassifyResult) {x : Nat},
      x ∈ acc.leafset → x ∈ (bs.foldl (classifyStep DT) acc).leafset := by
  intro bs
  induction bs with
  | nil => intro acc x hx; simpa using hx
  | cons b bs ih =>
    intro acc x hx
    exact ih _ (mem_classifyStep_left DT acc b hx)

theorem mem_classifyFold_right (DT : DomTree) :
    ∀ (bs : List BBlock) (acc : ClassifyResult) {x : Nat},
      x ∈ acc.nodeset → x ∈ (bs.foldl (classifyStep DT) acc).nodeset := by
  intro bs
  induction bs with
  | nil => intro acc x hx; simpa using hx
  | cons b bs ih =>
    intro acc x hx
    exact ih _ (mem_classifyStep_right DT acc b hx)

theorem classifyStep_self (DT : DomTree) (acc : ClassifyResult) (bb : BBlock) :
    (bb.bid ∈ (classifyStep DT acc bb).leafset ∨
      bb.bid ∈ (classifyStep DT acc bb).nodeset) ∧
    (DT.reachable bb.bid = true → isTwowayBranch bb = true →
      hasBackEdge DT bb = false → isOnlyBranch bb = false →
      bb.bid ∈ (classifyStep DT acc bb).leafset ∧
        bb.bid ∈ (classifyStep DT acc bb).nodeset) := by
  unfold classifyStep
  split
  · rename_i hcond
    refine ⟨Or.inl (by simp), ?_⟩
    intro h1 h2 h3 _
    rw [h1, h2, h3] at hcond
    simp at hcond
  · refine ⟨Or.inr (by simp), ?_⟩
    intro _ _ _ h4
    refine ⟨?_, by simp⟩
    dsimp only
    rw [h4]
    simp

theorem classify_mem_aux (DT : DomTree) (bb : BBlock) :
    ∀ (bs : List BBlock) (acc : ClassifyResult), bb ∈ bs →
      (bb.bid ∈ (bs.foldl (classifyStep DT) acc).leafset ∨
        bb.bid ∈ (bs.foldl (classifyStep DT) acc).nodeset) ∧
      (DT.reachable bb.bid = true → isTwowayBranch bb = true →
        hasBackEdge DT bb = false → isOnlyBranch bb = false →
        bb.bid ∈ (bs.foldl (classifyStep DT) acc).leafset ∧
          bb.bid ∈ (bs.foldl (classifyStep DT) acc).nodeset) := by
  intro bs
  induction bs with
  | nil => intro acc h; cases h
  | cons b bs ih =>
    intro acc h
    rcases List.mem_cons.mp h with heq | htail
    · subst heq
      constructor
      · rcases (classifyStep_self DT acc bb).1 with hl | hr
        · exact Or.inl (mem_classifyFold_left DT bs _ hl)
        · exact Or.inr (mem_classifyFold_right DT bs _ hr)
      · intro h1 h2 h3 h4
        obtain ⟨hl, hr⟩ := (classifyStep_self DT acc bb).2 h1 h2 h3 h4
        exact ⟨mem_classifyFold_left DT bs _ hl,
               mem_classifyFold_right DT bs _ hr⟩
    · exact ih _ htail

/-- C2, corrected: after classification every block of the function is in
the leaf set or in the candidate set, but the two sets are not exclusive —
a reachable two-way-branch block without back edge whose contents fail the
only-branch test is inserted into BOTH sets (the source adds it to
`nodeset` and then also to `leafset`). -/
theorem c2_classification_covers_and_overlaps (DT : DomTree) (F : Func)
    (bb : BBlock) (hmem : bb ∈ F.blocks) :
    (bb.bid ∈ (classify DT F).leafset ∨ bb.bid ∈ (classify DT F).nodeset) ∧
    (DT.reachable bb.bid = true → isTwowayBranch bb = true →
      hasBackEdge DT bb = false → isOnlyBranch bb = false →
      bb.bid ∈ (classify DT F).leafset ∧ bb.bid ∈ (classify DT F).nodeset) :=
  classify_mem_aux DT bb F.blocks ⟨[], []⟩ hmem

/-- C2, witness for the corrected claim: block `A` of `FA` (reachable,
two-way, no back edge, writes memory) is in both sets. -/
theorem c2_classification_witness :
    (⟨0, "A", [⟨true, []⟩], .condbr 1 2⟩ : BBlock) ∈ FA.blocks ∧
    DTA.reachable 0 = true ∧
    0 ∈ (classify DTA FA).leafset ∧ 0 ∈ (classify DTA FA).nodeset := by
  refine ⟨by decide, by decide, ?_⟩
  exact (c2_classification_covers_and_overlaps DTA FA
      ⟨0, "A", [⟨true, []⟩], .condbr 1 2⟩ (by decide)).2
    (by decide) (by decide) (by decide) (by decide)

/-- C2, counterexample to the claim as stated: in `FA`, block 0 belongs to
both the leaf set and the candidate set, so membership is not exclusive
and the only-branch failure does not remove it from the candidate set. -/
theorem c2_counterexample :
    0 ∈ (classify DTA FA).leafset ∧ 0 ∈ (classify DTA FA).nodeset := by
  decide

/-! ### Constructor field lemmas (claims C3, C10) -/

theorem applyShortcut_fields {a : List ChainNode} {base : ChainNode}
    {isLeft : Bool} {mid pstart : Nat} {ll : Int} {a' : List ChainNode}
    {n : ChainNode}
    (h : applyShortcut a base isLeft mid pstart ll = .ok (a', n)) :
    n.myBB = base.myBB ∧ n.level = base.level ∧
    n.leftchildBB = base.leftchildBB ∧ n.rightchildBB = base.rightchildBB ∧
    n.leftchildrenset = base.leftchildrenset ∧
    n.rightchildrenset = base.rightchildrenset ∧
    n.head = true ∧ n.haveSC = true ∧
    n.isleftSC = (if isLeft then true else base.isleftSC) ∧
    n.isrightSC = (if isLeft then base.isrightSC else true) := by
  unfold applyShortcut at h
  split at h
  · exact absurd h (by simp)
  · split at h
    · exact absurd h (by simp)
    · simp only [Except.ok.injEq, Prod.mk.injEq] at h
      obtain ⟨rfl, rfl⟩ := h
      simp

theorem mkLeafLeaf_fields (bb l r : Nat) :
    (mkLeafLeaf bb l r).myBB = bb ∧ (mkLeafLeaf bb l r).level = max 0 0 + 1 ∧
    (mkLeafLeaf bb l r).leftchildBB = some l ∧
    (mkLeafLeaf bb l r).rightchildBB = some r ∧
    (mkLeafLeaf bb l r).leftchildrenset = none ∧
    (mkLeafLeaf bb l r).rightchildrenset = none := by
  simp [mkLeafLeaf, initNode]

theorem mkLeafChain_fields {a : List ChainNode} {bb l rIdx : Nat}
    {a' : List ChainNode} {n : ChainNode}
    (h : mkLeafChain a bb l rIdx = .ok (a', n)) :
    n.myBB = bb ∧ n.level = max 0 (getNode a rIdx).level + 1 ∧
    n.leftchildBB = some l ∧ n.rightchildBB = none ∧
    n.leftchildrenset = none ∧ n.rightchildrenset = some rIdx := by
  simp only [mkLeafChain] at h
  split at h
  · simp only [Except.ok.injEq, Prod.mk.injEq] at h
    obtain ⟨rfl, rfl⟩ := h
    simp [initNode]
  · obtain ⟨h1, h2, h3, h4, h5, h6, _⟩ := applyShortcut_fields h
    rw [h1, h2, h3, h4, h5, h6]
    simp [initNode]

theorem mkChainLeaf_fields {a : List ChainNode} {bb lIdx r : Nat}
    {a' : List ChainNode} {n : ChainNode}
    (h : mkChainLeaf a bb lIdx r = .ok (a', n)) :
    n.myBB = bb ∧ n.level = max (getNode a lIdx).level 0 + 1 ∧
    n.leftchildBB = none ∧ n.rightchildBB = some r ∧
    n.leftchildrenset = some lIdx ∧ n.rightchildrenset = none := by
  simp only [mkChainLeaf] at h
  split at h
  · simp only [Except.ok.injEq, Prod.mk.injEq] at h
    obtain ⟨rfl, rfl⟩ := h
    simp [initNode]
  · obtain ⟨h1, h2, h3, h4, h5, h6, _⟩ := applyShortcut_fields h
    rw [h1, h2, h3, h4, h5, h6]
    simp [initNode]

theorem mkChainChainFirst_fields {a : List ChainNode} {base : ChainNode}
    {rIdx key : Nat} {a1 : List ChainNode} {n1 : ChainNode}
    (h : mkChainChainFirst a base rIdx key = .ok (a1, n1)) :
    n1.myBB = base.myBB ∧ n1.level = base.level ∧
    n1.leftchildBB = base.leftchildBB ∧ n1.rightchildBB = base.rightchildBB ∧
    n1.leftchildrenset = base.leftchildrenset ∧
    n1.rightchildrenset = base.rightchildrenset := by
  simp only [mkChainChainFirst] at h
  split at h
  · simp only [Except.ok.injEq, Prod.mk.injEq] at h
    obtain ⟨rfl, rfl⟩ := h
    exact ⟨rfl, rfl, rfl, rfl, rfl, rfl⟩
  · obtain ⟨h1, h2, h3, h4, h5, h6, _⟩ := applyShortcut_fields h
    exact ⟨h1, h2, h3, h4, h5, h6⟩

theorem mkChainChain_fields {a : List ChainNode} {bb lIdx rIdx : Nat}
    {a' : List ChainNode} {n : ChainNode}
    (h : mkChainChain a bb lIdx rIdx = .ok (a', n)) :
    n.myBB = bb ∧
    n.level = max (getNode a lIdx).level (getNode a rIdx).level + 1 ∧
    n.leftchildBB = none ∧ n.rightchildBB = none ∧
    n.leftchildrenset = some lIdx ∧ n.rightchildrenset = some rIdx := by
  simp only [mkChainChain] at h
  split at h
  · exact absurd h (by simp)
  · rename_i a1 n1 hfirst
    obtain ⟨g1, g2, g3, g4, g5, g6⟩ := mkChainChainFirst_fields hfirst
    split at h
    · simp only [Except.ok.injEq, Prod.mk.injEq] at h
      obtain ⟨rfl, rfl⟩ := h
      rw [g1, g2, g3, g4, g5, g6]
      simp [initNode]
    · split at h
      · exact absurd h (by simp)
      · obtain ⟨h1, h2, h3, h4, h5, h6, _⟩ := applyShortcut_fields h
        rw [h1, h2, h3, h4, h5, h6, g1, g2, g3, g4, g5, g6]
        simp [initNode]

/-- C3, corrected: every constructed ChainNode's `level` is `1 + max` of
the levels of its two children (a leaf child counting 0); a node whose two
children are both leaves therefore has level 1 (`init(thisBB, 0, 0)` adds
one), not 0 as the claim states. -/
theorem c3_level_one_plus_max :
    (∀ bb l r : Nat, (mkLeafLeaf bb l r).level = 1 + max 0 0 ∧
      (mkLeafLeaf bb l r).level = 1) ∧
    (∀ (a : List ChainNode) (bb l rIdx : Nat) (a' : List ChainNode)
        (n : ChainNode), mkLeafChain a bb l rIdx = .ok (a', n) →
      n.level = 1 + max 0 (getNode a rIdx).level) ∧
    (∀ (a : List ChainNode) (bb lIdx r : Nat) (a' : List ChainNode)
        (n : ChainNode), mkChainLeaf a bb lIdx r = .ok (a', n) →
      n.level = 1 + max (getNode a lIdx).level 0) ∧
    (∀ (a : List ChainNode) (bb lIdx rIdx : Nat) (a' : List ChainNode)
        (n : ChainNode), mkChainChain a bb lIdx rIdx = .ok (a', n) →
      n.level = 1 + max (getNode a lIdx).level (getNode a rIdx).level) := by
  refine ⟨?_, ?_, ?_, ?_⟩
  · intro bb l r
    have := (mkLeafLeaf_fields bb l r).2.1
    omega
  · intro a bb l rIdx a' n h
    have := (mkLeafChain_fields h).2.1
    omega
  · intro a bb lIdx r a' n h
    have := (mkChainLeaf_fields h).2.1
    omega
  · intro a bb lIdx rIdx a' n h
    have := (mkChainChain_fields h).2.1
    omega

/-- C3, witness: the chain/leaf node built for `B0` over scenario B's
one-node arena has level `1 + max 1 0 = 2`. -/
theorem c3_level_witness :
    (getNode sbBuild.arena 1).level
      = 1 + max (getNode [mkLeafLeaf 1 2 3] 0).level 0 := by
  have h : mkChainLeaf [mkLeafLeaf 1 2 3] 0 0 2
      = .ok ([mkLeafLeaf 1 2 3], getNode sbBuild.arena 1) := by rfl
  exact c3_level_one_plus_max.2.2.1 _ _ _ _ _ _ h

/-- C3, counterexample to the claim as stated: the leaf/leaf ChainNode
built for block `B1` of scenario B by the real pipeline has level 1, not
0. -/
theorem c3_counterexample :
    (getNode sbBuild.arena 0).leftchildBB = some 2 ∧
    (getNode sbBuild.arena 0).rightchildBB = some 3 ∧
    (getNode sbBuild.arena 0).level = 1 ∧
    ¬((getNode sbBuild.arena 0).level = 0) := by
  decide

/-! ### Scenario B end-to-end (claim C4) -/

/-- C4, corrected: on scenario B (`B0 -> (B1, L)`, `B1 -> (L, R)`, `L`,`R`
leaves) the analysis produces exactly one verified head, `B0`'s node, with
`haveSC = true`; the head absorbs only `B1` (`nummidnodes = 1`, midnode
set `[B1]`), and the reporter counts one shortcut-set and ONE shortcut
(`SCnum = 1`). -/
theorem c4_scenario_b_actual :
    sbRunPS.headNodeList = [1] ∧
    (getNode sbRunPS.arena 1).myBB = 0 ∧
    (getNode sbRunPS.arena 1).haveSC = true ∧
    (getNode sbRunPS.arena 1).nummidnodes = 1 ∧
    (getNode sbRunPS.arena 1).SCmidnodeset = [0] ∧
    (getNode sbRunPS.arena 1).SCnum = 1 ∧
    sbRunPS.counters.localSCset = 1 ∧
    sbRunPS.counters.localshortcut = 1 ∧
    sbRunPS.counters.numShortcut = 1 := by
  decide

/-- C4, counterexample to the claim as stated: on scenario B the single
verified head exists as claimed, but its chain member count is not 2 (it
is 1, whether measured by `nummidnodes` or by the midnode-set size) and
the reporter counts one shortcut, not two. -/
theorem c4_counterexample :
    sbRunPS.headNodeList = [1] ∧
    (getNode sbRunPS.arena 1).myBB = 0 ∧
    (getNode sbRunPS.arena 1).haveSC = true ∧
    ¬((getNode sbRunPS.arena 1).nummidnodes = 2) ∧
    ¬((getNode sbRunPS.arena 1).SCmidnodeset.length = 2) ∧
    ¬(sbRunPS.counters.localshortcut = 2) ∧
    ¬(sbRunPS.counters.numShortcut = 2) := by
  decide

/-! ### Leafset priority in chain building (claim C10) -/

theorem getNode_append (a : List ChainNode) (n : ChainNode) :
    getNode (a ++ [n]) a.length = n := by
  induction a with
  | nil => rfl
  | cons x xs ih =>
    show getNode (x :: (xs ++ [n])) (xs.length + 1) = n
    exact ih

/-- C10, as in the source: while resolving a candidate block, a branch
target found in the leaf set is attached as a leaf child — the leaf-set
test precedes the map lookup, so this holds even when the target also has
a ChainNode in the map — and a target is attached as a chain child exactly
when it is absent from the leaf set and present in the map. -/
theorem c10_leafset_priority (leafset : List Nat) (F : Func)
    (st : BuildState) (bbid : Nat) (blk : BBlock) (l r : Nat)
    (st' : BuildState)
    (hblk : blockById F bbid = some blk) (hterm : blk.term = .condbr l r)
    (hnew : mapHas st.scmap bbid = false)
    (hres : resolveNode leafset F st bbid = .ok (st', true)) :
    ∃ idx, st'.scmap = st.scmap ++ [(bbid, idx)] ∧
      (leafset.contains l = true →
        (getNode st'.arena idx).leftchildBB = some l ∧
        (getNode st'.arena idx).leftchildrenset = none) ∧
      (leafset.contains l = false →
        ∃ lIdx, mapFind st.scmap l = some lIdx ∧
          (getNode st'.arena idx).leftchildrenset = some lIdx ∧
          (getNode st'.arena idx).leftchildBB = none) ∧
      (leafset.contains r = true →
        (getNode st'.arena idx).rightchildBB = some r ∧
        (getNode st'.arena idx).rightchildrenset = none) ∧
      (leafset.contains r = false →
        ∃ rIdx, mapFind st.scmap r = some rIdx ∧
          (getNode st'.arena idx).rightchildrenset = some rIdx ∧
          (getNode st'.arena idx).rightchildBB = none) := by
  simp only [resolveNode, hnew, hblk, hterm, Bool.false_eq_true, if_false] at hres
  split at hres
  · rename_i hl
    split at hres
    · rename_i hr
      simp only [Except.ok.injEq, Prod.mk.injEq] at hres
      obtain ⟨rfl, -⟩ := hres
      obtain ⟨-, -, f3, f4, f5, f6⟩ := mkLeafLeaf_fields bbid l r
      refine ⟨st.arena.length, rfl, ?_, ?_, ?_, ?_⟩
      · intro _
        simp only [pushNode]
        rw [getNode_append]
        exact ⟨f3, f5⟩
      · intro hc; simp only [hc, Bool.false_eq_true] at hl
      · intro _
        simp only [pushNode]
        rw [getNode_append]
        exact ⟨f4, f6⟩
      · intro hc; simp only [hc, Bool.false_eq_true] at hr
    · rename_i hr
      split at hres
      · rename_i rIdx hmf
        split at hres
        · exact absurd hres (by simp)
        · rename_i a' node hmk
          simp only [Except.ok.injEq, Prod.mk.injEq] at hres
          obtain ⟨rfl, -⟩ := hres
          obtain ⟨-, -, f3, f4, f5, f6⟩ := mkLeafChain_fields hmk
          refine ⟨a'.length, rfl, ?_, ?_, ?_, ?_⟩
          · intro _
            simp only [pushNode]
            rw [getNode_append]
            exact ⟨f3, f5⟩
          · intro hc; simp only [hc, Bool.false_eq_true] at hl
          · intro hc; exact absurd hc hr
          · intro _
            refine ⟨rIdx, hmf, ?_⟩
            simp only [pushNode]
            rw [getNode_append]
            exact ⟨f6, f4⟩
      · exact absurd hres (by simp)
  · rename_i hl
    split at hres
    · rename_i lIdx hml
      split at hres
      · rename_i hr
        split at hres
        · exact absurd hres (by simp)
        · rename_i a' node hmk
          simp only [Except.ok.injEq, Prod.mk.injEq] at hres
          obtain ⟨rfl, -⟩ := hres
          obtain ⟨-, -, f3, f4, f5, f6⟩ := mkChainLeaf_fields hmk
          refine ⟨a'.length, rfl, ?_, ?_, ?_, ?_⟩
          · intro hc; exact absurd hc hl
          · intro _
            refine ⟨lIdx, hml, ?_⟩
            simp only [pushNode]
            rw [getNode_append]
            exact ⟨f5, f3⟩
          · intro _
            simp only [pushNode]
            rw [getNode_append]
            exact ⟨f4, f6⟩
          · intro hc; simp only [hc, Bool.false_eq_true] at hr
      · rename_i hr
        split at hres
        · rename_i rIdx hmr
          split at hres
          · exact absurd hres (by simp)
          · rename_i a' node hmk
            simp only [Except.ok.injEq, Prod.mk.injEq] at hres
            obtain ⟨rfl, -⟩ := hres
            obtain ⟨-, -, f3, f4, f5, f6⟩ := mkChainChain_fields hmk
            refine ⟨a'.length, rfl, ?_, ?_, ?_, ?_⟩
            · intro hc; exact absurd hc hl
            · intro _
              refine ⟨lIdx, hml, ?_⟩
              simp only [pushNode]
              rw [getNode_append]
              exact ⟨f5, f3⟩
            · intro hc; exact absurd hc hr
            · intro _
              refine ⟨rIdx, hmr, ?_⟩
              simp only [pushNode]
              rw [getNode_append]
              exact ⟨f6, f4⟩
        · exact absurd hres (by simp)
    · exact absurd hres (by simp)

/-- C10, witness: resolving `B0` of scenario B against
`leafset = [2, 3]` and a map already holding `B1`'s node attaches the
left target `B1` (not in the leaf set, in the map) as a chain child and
the right target `L` (in the leaf set) as a leaf child. -/
theorem c10_leafset_priority_witness :
    ∃ idx, sbBuild.scmap = [(1, 0)] ++ [(0, idx)] ∧
      (∃ lIdx, mapFind [(1, 0)] 1 = some lIdx ∧
        (getNode sbBuild.arena idx).leftchildrenset = some lIdx ∧
        (getNode sbBuild.arena idx).leftchildBB = none) ∧
      (getNode sbBuild.arena idx).rightchildBB = some 2 := by
  have h := c10_leafset_priority [2, 3] FB ⟨[mkLeafLeaf 1 2 3], [(1, 0)]⟩ 0
    ⟨0, "B0", [], .condbr 1 2⟩ 1 2 sbBuild (by decide) (by decide) (by decide)
    (by rfl)
  obtain ⟨idx, h1, -, h3, h4, -⟩ := h
  exact ⟨idx, h1, h3 (by decide), (h4 (by decide)).1⟩


/-! ### Head selection and dominance verification (claim C5) -/

theorem buildHeadFold_spec (DT : DomTree) (st : BuildState) :
    ∀ (bs : List BBlock) (hl : List Nat) (f : Nat),
      (bs.foldl (buildHeadStep DT st) (hl, f)).1
        = hl ++ ((bs.filterMap (fun bb => mapFind st.scmap bb.bid)).filter
            (fun idx => (getNode st.arena idx).head)).filter
            (fun idx => verify_domination DT st.arena idx) ∧
      (bs.foldl (buildHeadStep DT st) (hl, f)).2
        = f + (((bs.filterMap (fun bb => mapFind st.scmap bb.bid)).filter
            (fun idx => (getNode st.arena idx).head)).filter
            (fun idx => !(verify_domination DT st.arena idx))).length := by
  intro bs
  induction bs with
  | nil => intro hl f; simp
  | cons b bs ih =>
    intro hl f
    have hgoal : List.foldl (buildHeadStep DT st) (hl, f) (b :: bs)
        = List.foldl (buildHeadStep DT st) (buildHeadStep DT st (hl, f) b) bs := rfl
    cases hm : mapFind st.scmap b.bid with
    | none =>
      have hstep : buildHeadStep DT st (hl, f) b = (hl, f) := by
        simp [buildHeadStep, hm]
      rw [hgoal, hstep]
      simpa [List.filterMap_cons, hm] using ih hl f
    | some idx =>
      cases hh : (getNode st.arena idx).head with
      | false =>
        have hstep : buildHeadStep DT st (hl, f) b = (hl, f) := by
          simp [buildHeadStep, hm, hh]
        rw [hgoal, hstep]
        obtain ⟨i1, i2⟩ := ih hl f
        constructor
        · rw [i1]
          simp [List.filterMap_cons, hm, List.filter_cons, hh]
        · rw [i2]
          simp [List.filterMap_cons, hm, List.filter_cons, hh]
      | true =>
        cases hv : verify_domination DT st.arena idx with
        | true =>
          have hstep : buildHeadStep DT st (hl, f) b = (hl ++ [idx], f) := by
            simp [buildHeadStep, hm, hh, hv]
          rw [hgoal, hstep]
          obtain ⟨i1, i2⟩ := ih (hl ++ [idx]) f
          constructor
          · rw [i1]
            simp [List.filterMap_cons, hm, List.filter_cons, hh, hv]
          · rw [i2]
            simp [List.filterMap_cons, hm, List.filter_cons, hh, hv]
        | false =>
          have hstep : buildHeadStep DT st (hl, f) b = (hl, f + 1) := by
            simp [buildHeadStep, hm, hh, hv]
          rw [hgoal, hstep]
          obtain ⟨i1, i2⟩ := ih hl (f + 1)
          constructor
          · rw [i1]
            simp [List.filterMap_cons, hm, List.filter_cons, hh, hv]
          · rw [i2]
            simp [List.filterMap_cons, hm, List.filter_cons, hh, hv]
            omega

/-- C5, as in the source: `BuildHeadNodeList` appends to the incoming head
list exactly the mapped heads (in function block order) that pass
`verify_domination`; every appended head's block dominates the block of
every ChainNode in its midnode set; and each mapped head failing the check
is left off the list and counted once in `localFailed`. -/
theorem c5_verified_heads_dominate (DT : DomTree) (F : Func)
    (st : BuildState) (hl0 : List Nat) (f0 : Nat) :
    (BuildHeadNodeList DT F st hl0 f0).1
      = hl0 ++ (headCandidates F st).filter
          (fun idx => verify_domination DT st.arena idx) ∧
    (BuildHeadNodeList DT F st hl0 f0).2
      = f0 + ((headCandidates F st).filter
          (fun idx => !(verify_domination DT st.arena idx))).length ∧
    ∀ i ∈ (headCandidates F st).filter
        (fun idx => verify_domination DT st.arena idx),
      ∀ m ∈ (getNode st.arena i).SCmidnodeset,
        DT.dominates (getNode st.arena i).myBB (getNode st.arena m).myBB = true := by
  obtain ⟨h1, h2⟩ := buildHeadFold_spec DT st F.blocks hl0 f0
  refine ⟨h1, h2, ?_⟩
  intro i hi m hm
  have hv : verify_domination DT st.arena i = true :=
    (List.mem_filter.mp hi).2
  simp only [verify_domination, List.all_eq_true] at hv
  exact hv m hm

/-- C5, witness: in scenario B the single verified head is arena node 1
(`B0`), appended to the empty incoming list, with zero failures, and its
block dominates `B1`. -/
theorem c5_verified_heads_witness :
    (BuildHeadNodeList DTB FB sbBuild [] 0).1
      = [] ++ (headCandidates FB sbBuild).filter
          (fun idx => verify_domination DTB sbBuild.arena idx) ∧
    DTB.dominates (getNode sbBuild.arena 1).myBB
      (getNode sbBuild.arena 0).myBB = true := by
  refine ⟨(c5_verified_heads_dominate DTB FB sbBuild [] 0).1, ?_⟩
  exact (c5_verified_heads_dominate DTB FB sbBuild [] 0).2.2 1 (by decide) 0
    (by decide)


/-! ### Head-list persistence across functions (claim C1) -/

/-- C1: the source never clears the pass member `HeadNodeList` (and the
`ChildrenSet` heap is never freed), so the verified head of the first
analyzed function is dumped and counted again while reporting the second:
after running the pass on `FB` and then `FB2`, the head list holds both
heads (arena node 1 owning `FB`'s block 0 and arena node 3 owning `FB2`'s
block 10) and the "local" counters printed for `FB2` say 2 shortcut-sets
and 2 shortcuts, although `FB2` analyzed by a fresh pass yields exactly
one verified head, 1 set and 1 shortcut. -/
theorem c1_headlist_leaks_across_functions :
    twoRunPS.headNodeList = [1, 3] ∧
    (getNode twoRunPS.arena 1).myBB = 0 ∧
    (getNode twoRunPS.arena 3).myBB = 10 ∧
    twoRunPS.counters.localSCset = 2 ∧
    twoRunPS.counters.localshortcut = 2 ∧
    f2RunPS.headNodeList = [1] ∧
    f2RunPS.counters.localSCset = 1 ∧
    f2RunPS.counters.localshortcut = 1 := by
  decide

/-! ### Reporter idempotence (claim C8) -/

theorem dumpStep_add (a : List ChainNode) (c d : Counters) (i : Nat) :
    dumpStep a (addCounters c d) i = addCounters c (dumpStep a d i) := by
  cases c; cases d
  simp [dumpStep, addCounters, Nat.add_assoc]

theorem addCounters_zero (c : Counters) : addCounters c zeroCounters = c := by
  cases c
  simp [addCounters, zeroCounters]

theorem dumpFold_add (a : List ChainNode) :
    ∀ (hl : List Nat) (c d : Counters),
      hl.foldl (dumpStep a) (addCounters c d)
        = addCounters c (hl.foldl (dumpStep a) d) := by
  intro hl
  induction hl with
  | nil => intro c d; rfl
  | cons i hl ih =>
    intro c d
    show hl.foldl (dumpStep a) (dumpStep a (addCounters c d) i) = _
    rw [dumpStep_add, ih]
    rfl

theorem dumpShortcutCounters_add (a : List ChainNode) (hl : List Nat)
    (c : Counters) :
    dumpShortcutCounters a hl c
      = addCounters c (dumpShortcutCounters a hl zeroCounters) := by
  calc dumpShortcutCounters a hl c
      = hl.foldl (dumpStep a) (addCounters c zeroCounters) := by
        rw [addCounters_zero]; rfl
    _ = addCounters c (hl.foldl (dumpStep a) zeroCounters) :=
        dumpFold_add a hl c zeroCounters
    _ = _ := rfl

/-- C8, corrected: running the Reporter twice over an unchanged head list
and arena prints the same tree text both times and adds the same counter
increments both times, but the printed local counter lines of the second
run show the accumulated sums (the local counters are reset only at
function entry, not by the Reporter), so the two outputs' printed counts
are not identical whenever the increment is nonzero. -/
theorem c8_reporter_trees_and_deltas (nm : Nat → String)
    (a : List ChainNode) (hl : List Nat) (c : Counters) :
    (dumpShortcut nm a hl c).1
      = shortcutTreeText nm a hl
          ++ localLines (addCounters c (dumpShortcutCounters a hl zeroCounters)) ∧
    (dumpShortcut nm a hl ((dumpShortcut nm a hl c).2)).1
      = shortcutTreeText nm a hl
          ++ localLines (addCounters
              (addCounters c (dumpShortcutCounters a hl zeroCounters))
              (dumpShortcutCounters a hl zeroCounters)) ∧
    (dumpShortcut nm a hl c).2
      = addCounters c (dumpShortcutCounters a hl zeroCounters) ∧
    (dumpShortcut nm a hl ((dumpShortcut nm a hl c).2)).2
      = addCounters (addCounters c (dumpShortcutCounters a hl zeroCounters))
          (dumpShortcutCounters a hl zeroCounters) := by
  have h1 := dumpShortcutCounters_add a hl c
  have h2 := dumpShortcutCounters_add a hl
    (addCounters c (dumpShortcutCounters a hl zeroCounters))
  refine ⟨?_, ?_, ?_, ?_⟩
  · simp [dumpShortcut, h1]
  · simp [dumpShortcut, h1, h2]
  · simp [dumpShortcut, h1]
  · simp [dumpShortcut, h1, h2]

set_option maxRecDepth 8000 in
/-- C8, counterexample to the claim as stated: over scenario B's verified
chain map the first Reporter run ends with counters 1/1 while the second
run ends with counters 2/2, and the two full printed outputs (which end in
the `local ...` count lines) differ. -/
theorem c8_counterexample :
    (dumpShortcut nmEx sbRunPS.arena sbRunPS.headNodeList
        zeroCounters).2.localshortcut = 1 ∧
    (dumpShortcut nmEx sbRunPS.arena sbRunPS.headNodeList
        zeroCounters).2.localSCset = 1 ∧
    (dumpShortcut nmEx sbRunPS.arena sbRunPS.headNodeList
        ((dumpShortcut nmEx sbRunPS.arena sbRunPS.headNodeList
          zeroCounters).2)).2.localshortcut = 2 ∧
    (dumpShortcut nmEx sbRunPS.arena sbRunPS.headNodeList
        ((dumpShortcut nmEx sbRunPS.arena sbRunPS.headNodeList
          zeroCounters).2)).2.localSCset = 2 ∧
    (dumpShortcut nmEx sbRunPS.arena sbRunPS.headNodeList
        zeroCounters).1
      ≠ (dumpShortcut nmEx sbRunPS.arena sbRunPS.headNodeList
          ((dumpShortcut nmEx sbRunPS.arena sbRunPS.headNodeList
            zeroCounters).2)).1 := by
  decide


/-! ### Fixpoint termination of the chain builder (claim C7) -/

theorem mapHas_false_not_mem {m : List (Nat × Nat)} {k : Nat}
    (h : mapHas m k = false) : k ∉ m.map Prod.fst := by
  intro hk
  obtain ⟨p, hp, hpk⟩ := List.mem_map.mp hk
  have : mapHas m k = true := by
    simp only [mapHas, List.any_eq_true]
    exact ⟨p, hp, by simp [hpk]⟩
  rw [h] at this
  exact Bool.noConfusion this

theorem resolveNode_spec {leafset : List Nat} {F : Func} {st : BuildState}
    {bbid : Nat} {st' : BuildState} {c : Bool}
    (h : resolveNode leafset F st bbid = .ok (st', c)) :
    (c = false → st' = st) ∧
    (c = true → mapHas st.scmap bbid = false ∧
      ∃ idx, st'.scmap = st.scmap ++ [(bbid, idx)]) := by
  cases hhas : mapHas st.scmap bbid with
  | true =>
    unfold resolveNode at h
    rw [hhas] at h
    simp only [if_true] at h
    simp only [Except.ok.injEq, Prod.mk.injEq] at h
    obtain ⟨h1, h2⟩ := h
    subst h1
    subst h2
    exact ⟨fun _ => rfl, fun hc => by simp at hc⟩
  | false =>
    unfold resolveNode at h
    rw [hhas] at h
    simp only [Bool.false_eq_true, if_false] at h
    repeat' split at h
    all_goals first
      | exact Except.noConfusion h
      | (simp only [Except.ok.injEq, Prod.mk.injEq] at h
         obtain ⟨h1, h2⟩ := h
         subst h1
         subst h2
         first
           | exact ⟨fun _ => rfl, fun hc => Bool.noConfusion hc⟩
           | exact ⟨fun hc => Bool.noConfusion hc, fun _ => ⟨rfl, _, rfl⟩⟩)

theorem scanNodes_grow (leafset : List Nat) (F : Func) :
    ∀ (l : List Nat) (st : BuildState) (ch : Bool) (st' : BuildState)
      (ch' : Bool), scanNodes leafset F l st ch = .ok (st', ch') →
      st.scmap.length ≤ st'.scmap.length ∧
        (ch = false → ch' = true → st.scmap.length < st'.scmap.length) := by
  intro l
  induction l with
  | nil =>
    intro st ch st' ch' h
    simp only [scanNodes, Except.ok.injEq, Prod.mk.injEq] at h
    obtain ⟨h1, h2⟩ := h
    subst h1
    subst h2
    refine ⟨Nat.le_refl _, ?_⟩
    intro h1 h2
    rw [h1] at h2
    exact Bool.noConfusion h2
  | cons i l ih =>
    intro st ch st' ch' h
    simp only [scanNodes] at h
    split at h
    · exact absurd h (by simp)
    · rename_i st1 c hres
      obtain ⟨hmono, hstrict⟩ := ih st1 (ch || c) st' ch' h
      obtain ⟨hA, hB⟩ := resolveNode_spec hres
      cases c with
      | false =>
        have he : st1 = st := hA rfl
        subst he
        refine ⟨hmono, ?_⟩
        intro h1 h2
        subst h1
        exact hstrict (by simp) h2
      | true =>
        obtain ⟨-, idx, hmap⟩ := hB rfl
        have hlen : st1.scmap.length = st.scmap.length + 1 := by
          rw [hmap]; simp
        exact ⟨by omega, fun _ _ => by omega⟩

theorem scanNodes_goodKeys (leafset : List Nat) (F : Func) (ns : List Nat) :
    ∀ (l : List Nat), (∀ x ∈ l, x ∈ ns) →
      ∀ (st : BuildState) (ch : Bool) (st' : BuildState) (ch' : Bool),
        scanNodes leafset F l st ch = .ok (st', ch') →
        (st.scmap.map Prod.fst).Nodup →
        (∀ k ∈ st.scmap.map Prod.fst, k ∈ ns) →
        (st'.scmap.map Prod.fst).Nodup ∧
          ∀ k ∈ st'.scmap.map Prod.fst, k ∈ ns := by
  intro l
  induction l with
  | nil =>
    intro _ st ch st' ch' h hnd hks
    simp only [scanNodes, Except.ok.injEq, Prod.mk.injEq] at h
    obtain ⟨h1, -⟩ := h
    subst h1
    exact ⟨hnd, hks⟩
  | cons i l ih =>
    intro hsub st ch st' ch' h hnd hks
    simp only [scanNodes] at h
    split at h
    · exact absurd h (by simp)
    · rename_i st1 c hres
      obtain ⟨hA, hB⟩ := resolveNode_spec hres
      cases c with
      | false =>
        have he : st1 = st := hA rfl
        rw [he] at h
        exact ih (fun x hx => hsub x (List.mem_cons_of_mem _ hx)) st _ st' ch'
          h hnd hks
      | true =>
        obtain ⟨hfree, idx, hmap⟩ := hB rfl
        have hkeys : st1.scmap.map Prod.fst
            = st.scmap.map Prod.fst ++ [i] := by
          rw [hmap]; simp
        refine ih (fun x hx => hsub x (List.mem_cons_of_mem _ hx)) st1 _ st'
          ch' h ?_ ?_
        · rw [hkeys]
          refine List.Nodup.append hnd (List.nodup_singleton i) ?_
          intro x hxl hxi
          rw [List.mem_singleton] at hxi
          subst hxi
          exact mapHas_false_not_mem hfree hxl
        · rw [hkeys]
          intro k hk
          rcases List.mem_append.mp hk with hk | hk
          · exact hks k hk
          · rw [List.mem_singleton] at hk
            subst hk
            exact hsub k (List.mem_cons_self _ _)

theorem nodup_subset_length {l ns : List Nat} (hnd : l.Nodup)
    (hsub : ∀ x ∈ l, x ∈ ns) : l.length ≤ ns.length := by
  have h1 : l.toFinset.card = l.length := List.toFinset_card_of_nodup hnd
  have h2 : l.toFinset ⊆ ns.toFinset := by
    intro x hx
    simp only [List.mem_toFinset] at hx ⊢
    exact hsub x hx
  calc l.length = l.toFinset.card := h1.symm
    _ ≤ ns.toFinset.card := Finset.card_le_card h2
    _ ≤ ns.length := List.toFinset_card_le ns

theorem chainLoop_stable (leafset nodeset : List Nat) (F : Func) :
    ∀ (fuel : Nat) (st : BuildState) (k : Nat),
      (st.scmap.map Prod.fst).Nodup →
      (∀ x ∈ st.scmap.map Prod.fst, x ∈ nodeset) →
      nodeset.length + 1 ≤ fuel + st.scmap.length →
      chainLoop leafset nodeset F fuel st
        = chainLoop leafset nodeset F (fuel + k) st := by
  intro fuel
  induction fuel with
  | zero =>
    intro st k hnd hks hb
    have : st.scmap.length ≤ nodeset.length := by
      have := nodup_subset_length hnd hks
      simpa using this
    omega
  | succ fuel ih =>
    intro st k hnd hks hb
    have harith : fuel + 1 + k = (fuel + k) + 1 := by omega
    rw [harith]
    show (match scanNodes leafset F nodeset st false with
      | Except.error e => Except.error e
      | Except.ok (st', changed) =>
        if changed then chainLoop leafset nodeset F fuel st'
        else Except.ok st') = (match scanNodes leafset F nodeset st false with
      | Except.error e => Except.error e
      | Except.ok (st', changed) =>
        if changed then chainLoop leafset nodeset F (fuel + k) st'
        else Except.ok st')
    cases hscan : scanNodes leafset F nodeset st false with
    | error e => rfl
    | ok pr =>
      obtain ⟨st', changed⟩ := pr
      cases changed with
      | false => rfl
      | true =>
        simp only [if_true]
        obtain ⟨hnd', hks'⟩ := scanNodes_goodKeys leafset F nodeset nodeset
          (fun x hx => hx) st false st' true hscan hnd hks
        obtain ⟨-, hstrict⟩ := scanNodes_grow leafset F nodeset st false st'
          true hscan
        exact ih st' k hnd' hks' (by have := hstrict rfl rfl; omega)

/-- C7, as in the source: a chain-builder scan that reports `changed`
strictly grows the chain map, and since the map's keys are distinct
candidate blocks the `do ... while (changed)` loop reaches its fixpoint
within `candidate count + 1` scans — running `conSCSetMap`'s loop with any
extra fuel returns the same result, unresolved candidates simply staying
absent from the map. -/
theorem c7_fixpoint_terminates (leafset nodeset : List Nat) (F : Func)
    (a0 : List ChainNode) :
    (∀ (st st' : BuildState),
      scanNodes leafset F nodeset st false = .ok (st', true) →
      st.scmap.length < st'.scmap.length) ∧
    ∀ k, conSCSetMap leafset nodeset F a0
      = chainLoop leafset nodeset F (nodeset.length + 1 + k) ⟨a0, []⟩ := by
  constructor
  · intro st st' h
    exact (scanNodes_grow leafset F nodeset st false st' true h).2 rfl rfl
  · intro k
    exact chainLoop_stable leafset nodeset F (nodeset.length + 1) ⟨a0, []⟩ k
      (by simp) (by simp) (by simp)

/-- C7, witness: on scenario B (two candidate blocks) the loop result with
the source's fuel of 3 equals the result with fuel 4, and the scan that
builds `B1`'s node grows the map. -/
theorem c7_fixpoint_witness :
    conSCSetMap [2, 3] [0, 1] FB []
      = chainLoop [2, 3] [0, 1] FB 4 ⟨[], []⟩ ∧
    (⟨[], []⟩ : BuildState).scmap.length < sbScan1.scmap.length := by
  constructor
  · exact (c7_fixpoint_terminates [2, 3] [0, 1] FB []).2 1
  · exact (c7_fixpoint_terminates [2, 3] [0, 1] FB []).1 ⟨[], []⟩ sbScan1
      (by rfl)


/-! ### No double shortcut (claim C6) -/

theorem getNode_mem_or_default (a : List ChainNode) (i : Nat) :
    getNode a i ∈ a ∨ getNode a i = default := by
  unfold getNode
  rcases Nat.lt_or_ge i a.length with h | h
  · left
    rw [List.getD_eq_getElem a default h]
    exact List.getElem_mem h
  · right
    exact List.getD_eq_default a default h

theorem noDouble_getNode {a : List ChainNode} (ha : noDouble a) (i : Nat) :
    ¬((getNode a i).isleftSC = true ∧ (getNode a i).isrightSC = true) := by
  rcases getNode_mem_or_default a i with h | h
  · exact ha _ h
  · rw [h]
    rintro ⟨h1, -⟩
    exact Bool.noConfusion h1

theorem noDouble_setNode {a : List ChainNode} {i : Nat} {n : ChainNode}
    (ha : noDouble a) (hn : ¬(n.isleftSC = true ∧ n.isrightSC = true)) :
    noDouble (setNode a i n) := by
  intro x hx
  rcases List.mem_or_eq_of_mem_set hx with h | h
  · exact ha x h
  · subst h; exact hn

theorem noDouble_setUplink {a : List ChainNode} (ha : noDouble a)
    (i p : Nat) (b : Bool) : noDouble (setUplink a i p b) :=
  noDouble_setNode ha (noDouble_getNode ha i)

theorem noDouble_invalidateHead {a : List ChainNode} (ha : noDouble a)
    (i : Nat) : noDouble (invalidateHead a i) :=
  noDouble_setNode ha (noDouble_getNode ha i)

theorem bfsChild_noDouble {key cur : Nat} {isLeft : Bool}
    {childO : Option Nat} {a : List ChainNode} {wl mk : List Nat}
    (ha : noDouble a) :
    (∀ a' wl' mk', bfsChild key cur isLeft childO a wl mk
        = .inl (a', wl', mk') → noDouble a') ∧
    (∀ a' m ll, bfsChild key cur isLeft childO a wl mk
        = .inr (a', m, ll) → noDouble a') := by
  cases childO with
  | none =>
    constructor
    · intro a' wl' mk' h
      simp only [bfsChild, Sum.inl.injEq, Prod.mk.injEq] at h
      obtain ⟨h1, -⟩ := h
      subst h1
      exact ha
    · intro a' m ll h
      simp only [bfsChild] at h
      exact Sum.noConfusion h
  | some c =>
    constructor
    · intro a' wl' mk' h
      simp only [bfsChild] at h
      by_cases hm : mk.contains c = true
      · rw [if_pos hm] at h
        simp only [Sum.inl.injEq, Prod.mk.injEq] at h
        obtain ⟨h1, -⟩ := h
        subst h1
        exact ha
      · rw [if_neg hm] at h
        by_cases hk : (getNode a c).myBB = key
        · rw [if_pos hk] at h
          exact absurd h (by simp)
        · rw [if_neg hk] at h
          simp only [Sum.inl.injEq, Prod.mk.injEq] at h
          obtain ⟨h1, -⟩ := h
          subst h1
          exact noDouble_setUplink ha _ _ _
    · intro a' m ll h
      simp only [bfsChild] at h
      by_cases hm : mk.contains c = true
      · rw [if_pos hm] at h
        exact absurd h (by simp)
      · rw [if_neg hm] at h
        by_cases hk : (getNode a c).myBB = key
        · rw [if_pos hk] at h
          simp only [Sum.inr.injEq, Prod.mk.injEq] at h
          obtain ⟨h1, -⟩ := h
          subst h1
          exact ha
        · rw [if_neg hk] at h
          exact absurd h (by simp)

theorem isShortcutFuel_noDouble (key : Nat) :
    ∀ (fuel : Nat) (a : List ChainNode) (wl mk : List Nat), noDouble a →
      noDouble (isShortcutFuel key fuel a wl mk).1 := by
  intro fuel
  induction fuel with
  | zero => intro a wl mk ha; exact ha
  | succ fuel ih =>
    intro a wl mk ha
    cases wl with
    | nil => exact ha
    | cons cur rest =>
      unfold isShortcutFuel
      split
      · exact ha
      · split
        · exact ha
        · split
          · rename_i a' mid ll hb
            exact (bfsChild_noDouble ha).2 a' mid ll hb
          · rename_i a1 wl1 mk1 hb1
            have ha1 : noDouble a1 := (bfsChild_noDouble ha).1 a1 wl1 mk1 hb1
            split
            · rename_i a' mid ll hb2
              exact (bfsChild_noDouble ha1).2 a' mid ll hb2
            · rename_i a2 wl2 mk2 hb2
              exact ih a2 wl2 mk2 ((bfsChild_noDouble ha1).1 a2 wl2 mk2 hb2)

theorem midsetStop_noDouble {a : List ChainNode} (ha : noDouble a)
    (mid : Nat) (set : List Nat) (tot : Nat) :
    noDouble (midsetStop a mid set tot).1 := by
  unfold midsetStop
  by_cases h : (getNode a mid).head = true
  · rw [if_pos h]
    exact noDouble_invalidateHead ha mid
  · rw [if_neg h]
    exact ha

theorem midsetWalk_noDouble (pathstart : Nat) :
    ∀ (fuel : Nat) (a : List ChainNode) (mid : Nat) (set : List Nat)
      (tot : Nat) (res : List ChainNode × List Nat × Nat),
      midsetWalk pathstart fuel a mid set tot = .ok res → noDouble a →
      noDouble res.1 := by
  intro fuel
  induction fuel with
  | zero =>
    intro a mid set tot res h ha
    unfold midsetWalk at h
    split at h
    · simp only [Except.ok.injEq] at h
      subst h
      exact midsetStop_noDouble ha mid set tot
    · exact absurd h (by simp)
  | succ fuel ih =>
    intro a mid set tot res h ha
    unfold midsetWalk at h
    split at h
    · simp only [Except.ok.injEq] at h
      subst h
      exact midsetStop_noDouble ha mid set tot
    · split at h
      · exact absurd h (by simp)
      · rename_i j hj
        refine ih _ _ _ _ _ h ?_
        split
        · exact noDouble_invalidateHead ha mid
        · exact ha

theorem getallmidnodeset_noDouble {a : List ChainNode} {mid ps : Nat}
    {res : List ChainNode × List Nat × Nat}
    (h : getallmidnodeset a mid ps = .ok res) (ha : noDouble a) :
    noDouble res.1 :=
  midsetWalk_noDouble ps (a.length + 1) a mid [] 0 res h ha

theorem applyShortcut_noDouble {a : List ChainNode} {base : ChainNode}
    {isLeft : Bool} {mid ps : Nat} {ll : Int} {a' : List ChainNode}
    {n : ChainNode} (h : applyShortcut a base isLeft mid ps ll = .ok (a', n))
    (ha : noDouble a) (hbl : base.isleftSC = false)
    (hbr : base.isrightSC = false) :
    noDouble a' ∧ ¬(n.isleftSC = true ∧ n.isrightSC = true) := by
  unfold applyShortcut at h
  split at h
  · exact absurd h (by simp)
  · split at h
    · exact absurd h (by simp)
    · rename_i hmids
      simp only [Except.ok.injEq, Prod.mk.injEq] at h
      obtain ⟨h1, h2⟩ := h
      subst h1
      subst h2
      refine ⟨getallmidnodeset_noDouble hmids ha, ?_⟩
      cases isLeft with
      | true =>
        rintro ⟨-, hr⟩
        simp only [if_true, hbr] at hr
        exact Bool.noConfusion hr
      | false =>
        rintro ⟨hl, -⟩
        simp only [if_false, hbl] at hl
        exact Bool.noConfusion hl

theorem noDouble_append_singleton {a : List ChainNode} {n : ChainNode}
    (ha : noDouble a) (hn : ¬(n.isleftSC = true ∧ n.isrightSC = true)) :
    noDouble (a ++ [n]) := by
  intro x hx
  rcases List.mem_append.mp hx with h | h
  · exact ha x h
  · rw [List.mem_singleton] at h
    subst h
    exact hn

theorem mkLeafLeaf_noDouble (bb l r : Nat) :
    ¬((mkLeafLeaf bb l r).isleftSC = true
      ∧ (mkLeafLeaf bb l r).isrightSC = true) := by
  rintro ⟨h, -⟩
  simp [mkLeafLeaf, initNode] at h

theorem mkLeafChain_noDouble {a : List ChainNode} {bb l rIdx : Nat}
    {a' : List ChainNode} {n : ChainNode}
    (h : mkLeafChain a bb l rIdx = .ok (a', n)) (ha : noDouble a) :
    noDouble a' ∧ ¬(n.isleftSC = true ∧ n.isrightSC = true) := by
  simp only [mkLeafChain] at h
  split at h
  · rename_i hsearch
    simp only [Except.ok.injEq, Prod.mk.injEq] at h
    obtain ⟨h1, h2⟩ := h
    subst h1
    subst h2
    have hnd := isShortcutFuel_noDouble l (a.length + 1) a [rIdx] [rIdx] ha
    rw [hsearch] at hnd
    refine ⟨hnd, ?_⟩
    rintro ⟨hl, -⟩
    simp [initNode] at hl
  · rename_i hsearch
    have ha1 := isShortcutFuel_noDouble l (a.length + 1) a [rIdx] [rIdx] ha
    rw [hsearch] at ha1
    exact applyShortcut_noDouble h ha1 (by simp [initNode]) (by simp [initNode])

theorem mkChainLeaf_noDouble {a : List ChainNode} {bb lIdx r : Nat}
    {a' : List ChainNode} {n : ChainNode}
    (h : mkChainLeaf a bb lIdx r = .ok (a', n)) (ha : noDouble a) :
    noDouble a' ∧ ¬(n.isleftSC = true ∧ n.isrightSC = true) := by
  simp only [mkChainLeaf] at h
  split at h
  · rename_i hsearch
    simp only [Except.ok.injEq, Prod.mk.injEq] at h
    obtain ⟨h1, h2⟩ := h
    subst h1
    subst h2
    have hnd := isShortcutFuel_noDouble r (a.length + 1) a [lIdx] [lIdx] ha
    rw [hsearch] at hnd
    refine ⟨hnd, ?_⟩
    rintro ⟨hl, -⟩
    simp [initNode] at hl
  · rename_i hsearch
    have ha1 := isShortcutFuel_noDouble r (a.length + 1) a [lIdx] [lIdx] ha
    rw [hsearch] at ha1
    exact applyShortcut_noDouble h ha1 (by simp [initNode]) (by simp [initNode])

theorem mkChainChainFirst_noDouble {a : List ChainNode} {base : ChainNode}
    {rIdx key : Nat} {a1 : List ChainNode} {n1 : ChainNode}
    (h : mkChainChainFirst a base rIdx key = .ok (a1, n1)) (ha : noDouble a)
    (hbl : base.isleftSC = false) (hbr : base.isrightSC = false) :
    noDouble a1 ∧ ¬(n1.isleftSC = true ∧ n1.isrightSC = true)
      ∧ (n1.haveSC = false → n1 = base) := by
  simp only [mkChainChainFirst] at h
  split at h
  · rename_i hsearch
    simp only [Except.ok.injEq, Prod.mk.injEq] at h
    obtain ⟨h1, h2⟩ := h
    subst h1
    subst h2
    have hnd := isShortcutFuel_noDouble key (a.length + 1) a [rIdx] [rIdx] ha
    rw [hsearch] at hnd
    refine ⟨hnd, ?_, fun _ => rfl⟩
    rintro ⟨hl, -⟩
    rw [hbl] at hl
    exact Bool.noConfusion hl
  · rename_i hsearch
    have ha2 := isShortcutFuel_noDouble key (a.length + 1) a [rIdx] [rIdx] ha
    rw [hsearch] at ha2
    obtain ⟨g1, g2⟩ := applyShortcut_noDouble h ha2 hbl hbr
    refine ⟨g1, g2, ?_⟩
    intro hsc
    have hfields := (applyShortcut_fields h).2.2.2.2.2.2.2.1
    rw [hsc] at hfields
    exact absurd hfields.symm Bool.noConfusion

theorem mkChainChain_noDouble {a : List ChainNode} {bb lIdx rIdx : Nat}
    {a' : List ChainNode} {n : ChainNode}
    (h : mkChainChain a bb lIdx rIdx = .ok (a', n)) (ha : noDouble a) :
    noDouble a' ∧ ¬(n.isleftSC = true ∧ n.isrightSC = true) := by
  simp only [mkChainChain] at h
  split at h
  · exact absurd h (by simp)
  · rename_i a1 n1 hfirst
    obtain ⟨ha1, hn1, hn1base⟩ := mkChainChainFirst_noDouble hfirst ha
      (by simp [initNode]) (by simp [initNode])
    split at h
    · rename_i hsearch2
      simp only [Except.ok.injEq, Prod.mk.injEq] at h
      obtain ⟨h1, h2⟩ := h
      subst h1
      subst h2
      have hnd := isShortcutFuel_noDouble (getNode a1 rIdx).myBB
        (a1.length + 1) a1 [lIdx] [lIdx] ha1
      rw [hsearch2] at hnd
      exact ⟨hnd, hn1⟩
    · rename_i hsearch2
      have hb1 := isShortcutFuel_noDouble (getNode a1 rIdx).myBB
        (a1.length + 1) a1 [lIdx] [lIdx] ha1
      rw [hsearch2] at hb1
      split at h
      · exact absurd h (by simp)
      · rename_i hnosc
        have hsc : n1.haveSC = false := by
          cases hv : n1.haveSC with
          | false => rfl
          | true => exact absurd hv hnosc
        have hbase := hn1base hsc
        subst hbase
        exact applyShortcut_noDouble h hb1 (by simp [initNode])
          (by simp [initNode])

theorem resolveNode_noDouble {leafset : List Nat} {F : Func}
    {st : BuildState} {bbid : Nat} {st' : BuildState} {c : Bool}
    (h : resolveNode leafset F st bbid = .ok (st', c))
    (ha : noDouble st.arena) : noDouble st'.arena := by
  unfold resolveNode at h
  repeat' split at h
  all_goals first
    | exact Except.noConfusion h
    | (simp only [Except.ok.injEq, Prod.mk.injEq] at h
       obtain ⟨h1, -⟩ := h
       subst h1
       first
         | exact ha
         | exact noDouble_append_singleton ha (mkLeafLeaf_noDouble _ _ _)
         | (rename_i hmk
            first
              | exact noDouble_append_singleton (mkLeafChain_noDouble hmk ha).1
                  (mkLeafChain_noDouble hmk ha).2
              | exact noDouble_append_singleton (mkChainLeaf_noDouble hmk ha).1
                  (mkChainLeaf_noDouble hmk ha).2
              | exact noDouble_append_singleton (mkChainChain_noDouble hmk ha).1
                  (mkChainChain_noDouble hmk ha).2))

theorem scanNodes_noDouble (leafset : List Nat) (F : Func) :
    ∀ (l : List Nat) (st : BuildState) (ch : Bool) (st' : BuildState)
      (ch' : Bool), scanNodes leafset F l st ch = .ok (st', ch') →
      noDouble st.arena → noDouble st'.arena := by
  intro l
  induction l with
  | nil =>
    intro st ch st' ch' h ha
    simp only [scanNodes, Except.ok.injEq, Prod.mk.injEq] at h
    obtain ⟨h1, -⟩ := h
    subst h1
    exact ha
  | cons i l ih =>
    intro st ch st' ch' h ha
    simp only [scanNodes] at h
    split at h
    · exact absurd h (by simp)
    · rename_i st1 c hres
      exact ih st1 _ st' ch' h (resolveNode_noDouble hres ha)

theorem chainLoop_noDouble (leafset nodeset : List Nat) (F : Func) :
    ∀ (fuel : Nat) (st st' : BuildState),
      chainLoop leafset nodeset F fuel st = .ok st' →
      noDouble st.arena → noDouble st'.arena := by
  intro fuel
  induction fuel with
  | zero =>
    intro st st' h ha
    simp only [chainLoop, Except.ok.injEq] at h
    subst h
    exact ha
  | succ fuel ih =>
    intro st st' h ha
    simp only [chainLoop] at h
    split at h
    · exact absurd h (by simp)
    · rename_i st1 changed hscan
      have h1 := scanNodes_noDouble leafset F nodeset st false st1 changed
        hscan ha
      split at h
      · exact ih st1 st' h h1
      · simp only [Except.ok.injEq] at h
        subst h
        exact h1

theorem noDouble_setOut0 {a : List ChainNode} (ha : noDouble a)
    (i : Nat) (e : Edge) : noDouble (setOut0 a i e) :=
  noDouble_setNode ha (noDouble_getNode ha i)

theorem noDouble_setOut1 {a : List ChainNode} (ha : noDouble a)
    (i : Nat) (e : Edge) : noDouble (setOut1 a i e) :=
  noDouble_setNode ha (noDouble_getNode ha i)

theorem noDouble_addInEdgeIfIn {a : List ChainNode} (ha : noDouble a)
    (c : Nat) (midset : List Nat) (e : Edge) :
    noDouble (addInEdgeIfIn a c midset e) := by
  unfold addInEdgeIfIn
  split
  · exact noDouble_setNode ha (noDouble_getNode ha c)
  · exact ha

theorem noDouble_edgeLeftSide {a : List ChainNode} (ha : noDouble a)
    (i : Nat) (midset : List Nat) : noDouble (edgeLeftSide a i midset) := by
  unfold edgeLeftSide
  split
  · exact noDouble_setOut0 ha _ _
  · exact noDouble_addInEdgeIfIn (noDouble_setOut0 ha _ _) _ _ _
  · exact ha

theorem noDouble_edgeRightSide {a : List ChainNode} (ha : noDouble a)
    (i : Nat) (midset : List Nat) : noDouble (edgeRightSide a i midset) := by
  unfold edgeRightSide
  split
  · exact noDouble_setOut1 ha _ _
  · exact noDouble_addInEdgeIfIn (noDouble_setOut1 ha _ _) _ _ _
  · exact ha

theorem noDouble_nodeConEdgeGraph {a : List ChainNode} (ha : noDouble a)
    (i : Nat) (midset : List Nat) :
    noDouble (nodeConEdgeGraph a i midset) :=
  noDouble_edgeRightSide (noDouble_edgeLeftSide ha i midset) i midset

theorem noDouble_edgeBFS (midset : List Nat) :
    ∀ (fuel : Nat) (a : List ChainNode) (wl marked : List Nat),
      noDouble a → noDouble (edgeBFS midset fuel a wl marked) := by
  intro fuel
  induction fuel with
  | zero => intro a wl marked ha; exact ha
  | succ fuel ih =>
    intro a wl marked ha
    cases wl with
    | nil => exact ha
    | cons cur rest =>
      unfold edgeBFS
      split
      · exact ih a rest marked ha
      · exact ih _ _ _ (noDouble_nodeConEdgeGraph ha cur midset)

theorem noDouble_conEdgeGraph :
    ∀ (hl : List Nat) (a : List ChainNode), noDouble a →
      noDouble (conEdgeGraph a hl) := by
  intro hl
  induction hl with
  | nil => intro a ha; exact ha
  | cons h hl ih =>
    intro a ha
    exact ih _ (noDouble_edgeBFS _ _ a [h] [] ha)

theorem runOnFunction_noDouble {nm : Nat → String} {DT : DomTree} {F : Func}
    {ps ps' : PassState} {out : String}
    (h : runOnFunction nm DT F ps = .ok (ps', out))
    (ha : noDouble ps.arena) : noDouble ps'.arena := by
  simp only [runOnFunction] at h
  split at h
  · exact absurd h (by simp)
  · rename_i st hcon
    simp only [Except.ok.injEq, Prod.mk.injEq] at h
    obtain ⟨h1, -⟩ := h
    subst h1
    unfold conSCSetMap at hcon
    have hst := chainLoop_noDouble _ _ F _ _ _ hcon ha
    exact noDouble_conEdgeGraph _ _ hst

theorem runAll_noDouble (nm : Nat → String) :
    ∀ (fs : List (DomTree × Func)) (ps ps' : PassState) (out : String),
      runAll nm fs ps = .ok (ps', out) → noDouble ps.arena →
      noDouble ps'.arena := by
  intro fs
  induction fs with
  | nil =>
    intro ps ps' out h ha
    simp only [runAll, Except.ok.injEq, Prod.mk.injEq] at h
    obtain ⟨h1, -⟩ := h
    subst h1
    exact ha
  | cons p fs ih =>
    intro ps ps' out h ha
    obtain ⟨DT, F⟩ := p
    simp only [runAll] at h
    split at h
    · exact absurd h (by simp)
    · rename_i ps1 t1 hrun1
      split at h
      · exact absurd h (by simp)
      · rename_i ps2 t2 hrun2
        simp only [Except.ok.injEq, Prod.mk.injEq] at h
        obtain ⟨h1, -⟩ := h
        subst h1
        exact ih ps1 ps2 t2 hrun2 (runOnFunction_noDouble hrun1 ha)

/-- C6: over any sequence of analyzed functions, no `ChildrenSet` in the
pass's heap ever carries both `isleftSC` and `isrightSC` (each constructor
sets at most one side, and the later mutations — uplinks, head
invalidation, edge wiring — never touch the flags); and a chain/chain
construction whose two searches both match aborts with the
`assert(!haveSC ...)` failure instead of producing a node, as the
hand-built arena `aXY` shows. -/
theorem c6_no_double_shortcut (nm : Nat → String)
    (fs : List (DomTree × Func)) (ps : PassState) (out : String)
    (hrun : runAll nm fs initPassState = .ok (ps, out)) :
    (∀ n ∈ ps.arena, ¬(n.isleftSC = true ∧ n.isrightSC = true)) ∧
    ∃ e, mkChainChain aXY 0 0 1 = .error e := by
  refine ⟨runAll_noDouble nm fs initPassState ps out hrun ?_, ?_⟩
  · intro n hn
    cases hn
  · exact ⟨"ERROR, one BB could not have two shortcuts on both children!",
      by rfl⟩

/-- C6, witness: instantiated on the scenario-B run. -/
theorem c6_no_double_witness :
    (∀ n ∈ sbAllPS.arena, ¬(n.isleftSC = true ∧ n.isrightSC = true)) ∧
    ∃ e, mkChainChain aXY 0 0 1 = .error e :=
  c6_no_double_shortcut nmEx [(DTB, FB)] sbAllPS sbAllOut (by rfl)


/-! ### Null-free back-link walks (claim C9) -/

theorem getNode_set_self (a : List ChainNode) (i : Nat) (n : ChainNode)
    (h : i < a.length) : getNode (setNode a i n) i = n := by
  unfold getNode setNode
  rw [List.getD_eq_getElem _ _ (by simpa using h)]
  exact List.getElem_set_self _

theorem getNode_set_ne (a : List ChainNode) {i y : Nat} (n : ChainNode)
    (h : i ≠ y) : getNode (setNode a i n) y = getNode a y := by
  unfold getNode setNode
  rcases Nat.lt_or_ge y a.length with hy | hy
  · rw [List.getD_eq_getElem _ _ (by simpa using hy),
      List.getD_eq_getElem _ _ hy]
    exact List.getElem_set_ne h _
  · rw [List.getD_eq_default _ _ (by simpa using hy),
      List.getD_eq_default _ _ hy]

theorem getNode_set_oob (a : List ChainNode) (i : Nat) (n : ChainNode)
    (h : a.length ≤ i) (y : Nat) : getNode (setNode a i n) y = getNode a y := by
  unfold setNode
  rw [List.set_eq_of_length_le h]

theorem setNode_length (a : List ChainNode) (i : Nat) (n : ChainNode) :
    (setNode a i n).length = a.length :=
  List.length_set a i n

theorem setUplink_length (a : List ChainNode) (i p : Nat) (b : Bool) :
    (setUplink a i p b).length = a.length :=
  setNode_length _ _ _

theorem setUplink_children (a : List ChainNode) (i p : Nat) (b : Bool)
    (y : Nat) :
    (getNode (setUplink a i p b) y).leftchildrenset
      = (getNode a y).leftchildrenset ∧
    (getNode (setUplink a i p b) y).rightchildrenset
      = (getNode a y).rightchildrenset := by
  unfold setUplink
  rcases Nat.lt_or_ge i a.length with hi | hi
  · rcases eq_or_ne i y with rfl | hne
    · rw [getNode_set_self _ _ _ hi]
      exact ⟨rfl, rfl⟩
    · rw [getNode_set_ne _ _ hne]
      exact ⟨rfl, rfl⟩
  · rw [getNode_set_oob _ _ _ hi]
    exact ⟨rfl, rfl⟩

theorem setUplink_self (a : List ChainNode) (i p : Nat) (b : Bool)
    (h : i < a.length) :
    (getNode (setUplink a i p b) i).uplink = some p := by
  unfold setUplink
  rw [getNode_set_self _ _ _ h]

theorem setUplink_other (a : List ChainNode) {i y : Nat} (p : Nat) (b : Bool)
    (h : i ≠ y) :
    (getNode (setUplink a i p b) y).uplink = (getNode a y).uplink := by
  unfold setUplink
  rcases Nat.lt_or_ge i a.length with hi | hi
  · rw [getNode_set_ne _ _ h]
  · rw [getNode_set_oob _ _ _ hi]

theorem invalidateHead_uplink (a : List ChainNode) (i y : Nat) :
    (getNode (invalidateHead a i) y).uplink = (getNode a y).uplink := by
  unfold invalidateHead
  rcases Nat.lt_or_ge i a.length with hi | hi
  · rcases eq_or_ne i y with rfl | hne
    · rw [getNode_set_self _ _ _ hi]
    · rw [getNode_set_ne _ _ hne]
  · rw [getNode_set_oob _ _ _ hi]

theorem childrenValid_of_B {a : List ChainNode}
    (h : childrenValidB a = true) : childrenValid a := by
  intro i j
  rcases getNode_mem_or_default a i with hm | hd
  · simp only [childrenValidB, List.all_eq_true, Bool.and_eq_true] at h
    obtain ⟨h1, h2⟩ := h _ hm
    constructor
    · intro hj
      rw [hj] at h1
      simpa using h1
    · intro hj
      rw [hj] at h2
      simpa using h2
  · rw [hd]
    have hl : (default : ChainNode).leftchildrenset = none := rfl
    have hr : (default : ChainNode).rightchildrenset = none := rfl
    rw [hl, hr]
    exact ⟨fun hj => Option.noConfusion hj, fun hj => Option.noConfusion hj⟩

theorem childrenValid_setUplink {a : List ChainNode} (h : childrenValid a)
    (i p : Nat) (b : Bool) : childrenValid (setUplink a i p b) := by
  intro y j
  obtain ⟨hc1, hc2⟩ := setUplink_children a i p b y
  rw [hc1, hc2, setUplink_length]
  exact h y j

theorem UpPath_length_pos {a : List ChainNode} {root x : Nat} {l : List Nat}
    (h : UpPath a root x l) : 0 < l.length := by
  cases h <;> simp

theorem UpPath_congr {a a' : List ChainNode} {root x : Nat} {l : List Nat}
    (hup : ∀ y ∈ l, (getNode a' y).uplink = (getNode a y).uplink)
    (h : UpPath a root x l) : UpPath a' root x l := by
  induction h with
  | refl => exact .refl
  | step hne hupl _ ih =>
    refine .step hne ?_ (ih fun y hy => hup y (List.mem_cons_of_mem _ hy))
    rw [hup _ (List.mem_cons_self _ _)]
    exact hupl

theorem bfsChild_inv {key cur root : Nat} {isLeft : Bool}
    {childO : Option Nat} {a : List ChainNode} {wl marked : List Nat}
    (hinv : BfsInv a root wl marked) (hcur : cur ∈ marked)
    (hchild : ∀ c, childO = some c → c < a.length) :
    (∀ a' wl' mk', bfsChild key cur isLeft childO a wl marked
        = .inl (a', wl', mk') →
      BfsInv a' root wl' mk' ∧ cur ∈ mk' ∧ a'.length = a.length ∧
        ∀ y j, ((getNode a' y).leftchildrenset = some j →
            (getNode a y).leftchildrenset = some j) ∧
          ((getNode a' y).rightchildrenset = some j →
            (getNode a y).rightchildrenset = some j)) ∧
    ∀ a' m ll, bfsChild key cur isLeft childO a wl marked
        = .inr (a', m, ll) → a' = a ∧ m = cur ∧ (ll = 1 ∨ ll = -1) := by
  cases childO with
  | none =>
    constructor
    · intro a' wl' mk' h
      simp only [bfsChild, Sum.inl.injEq, Prod.mk.injEq] at h
      obtain ⟨h1, h2, h3⟩ := h
      subst h1; subst h2; subst h3
      exact ⟨hinv, hcur, rfl, fun y j => ⟨fun hj => hj, fun hj => hj⟩⟩
    · intro a' m ll h
      simp only [bfsChild] at h
      exact Sum.noConfusion h
  | some c =>
    have hclt : c < a.length := hchild c rfl
    constructor
    · intro a' wl' mk' h
      simp only [bfsChild] at h
      by_cases hm : marked.contains c = true
      · rw [if_pos hm] at h
        simp only [Sum.inl.injEq, Prod.mk.injEq] at h
        obtain ⟨h1, h2, h3⟩ := h
        subst h1; subst h2; subst h3
        exact ⟨hinv, hcur, rfl, fun y j => ⟨fun hj => hj, fun hj => hj⟩⟩
      · rw [if_neg hm] at h
        by_cases hk : (getNode a c).myBB = key
        · rw [if_pos hk] at h
          exact absurd h (by simp)
        · rw [if_neg hk] at h
          simp only [Sum.inl.injEq, Prod.mk.injEq] at h
          obtain ⟨h1, h2, h3⟩ := h
          subst h1; subst h2; subst h3
          have hcm : c ∉ marked := by simpa using hm
          have hcne : ∀ y ∈ marked, c ≠ y := by
            intro y hy hcy
            subst hcy
            exact hcm hy
          refine ⟨⟨?_, ?_, ?_, ?_, ?_⟩, List.mem_append_left _ hcur,
            setUplink_length a c cur isLeft,
            fun y j => ⟨fun hj => ?_, fun hj => ?_⟩⟩
          · intro x hx
            rcases List.mem_append.mp hx with hx | hx
            · exact List.mem_append_left _ (hinv.wlSub x hx)
            · exact List.mem_append_right _ hx
          · exact List.mem_append_left _ hinv.rootMem
          · refine List.Nodup.append hinv.markedNodup
              (List.nodup_singleton c) ?_
            intro x hx hx1
            rw [List.mem_singleton] at hx1
            subst hx1
            exact hcm hx
          · intro x hx
            rw [setUplink_length]
            rcases List.mem_append.mp hx with hx | hx
            · exact hinv.markedLt x hx
            · rw [List.mem_singleton] at hx
              subst hx
              exact hclt
          · intro x hx
            rcases List.mem_append.mp hx with hx | hx
            · obtain ⟨l, hup, hnd, hmem⟩ := hinv.reach x hx
              refine ⟨l, UpPath_congr ?_ hup, hnd,
                fun y hy => List.mem_append_left _ (hmem y hy)⟩
              intro y hy
              exact setUplink_other a cur isLeft (hcne y (hmem y hy))
            · rw [List.mem_singleton] at hx
              subst hx
              obtain ⟨l, hup, hnd, hmem⟩ := hinv.reach cur hcur
              refine ⟨x :: l, ?_, ?_, ?_⟩
              · refine UpPath.step ?_ (setUplink_self a x cur isLeft hclt)
                  (UpPath_congr ?_ hup)
                · intro hxr
                  subst hxr
                  exact hcm hinv.rootMem
                · intro y hy
                  exact setUplink_other a cur isLeft (hcne y (hmem y hy))
              · refine List.nodup_cons.mpr ⟨?_, hnd⟩
                intro hxl
                exact hcm (hmem x hxl)
              · intro y hy
                rcases List.mem_cons.mp hy with hy | hy
                · subst hy
                  exact List.mem_append_right _ (List.mem_singleton.mpr rfl)
                · exact List.mem_append_left _ (hmem y hy)
          · exact ((setUplink_children a c cur isLeft y).1).symm.trans hj
          · exact ((setUplink_children a c cur isLeft y).2).symm.trans hj
    · intro a' m ll h
      simp only [bfsChild] at h
      by_cases hm : marked.contains c = true
      · rw [if_pos hm] at h
        exact absurd h (by simp)
      · rw [if_neg hm] at h
        by_cases hk : (getNode a c).myBB = key
        · rw [if_pos hk] at h
          simp only [Sum.inr.injEq, Prod.mk.injEq] at h
          obtain ⟨h1, h2, h3⟩ := h
          subst h1; subst h2; subst h3
          refine ⟨rfl, rfl, ?_⟩
          cases isLeft
          · right; rfl
          · left; rfl
        · rw [if_neg hk] at h
          exact absurd h (by simp)


theorem isShortcut_reaches (key root : Nat) :
    ∀ (fuel : Nat) (a : List ChainNode) (wl marked : List Nat)
      (a' : List ChainNode) (mid : Nat) (ll : Int),
      childrenValid a → BfsInv a root wl marked →
      isShortcutFuel key fuel a wl marked = (a', some (mid, ll)) →
      (ll = 1 ∨ ll = -1) ∧
        ∃ l, UpPath a' root mid l ∧ l.Nodup ∧ ∀ y ∈ l, y < a'.length := by
  intro fuel
  induction fuel with
  | zero =>
    intro a wl marked a' mid ll hcv hinv h
    simp only [isShortcutFuel, Prod.mk.injEq] at h
    exact absurd h.2 (by simp)
  | succ fuel ih =>
    intro a wl marked a' mid ll hcv hinv h
    cases wl with
    | nil =>
      simp only [isShortcutFuel, Prod.mk.injEq] at h
      exact absurd h.2 (by simp)
    | cons cur rest =>
      have hcur : cur ∈ marked := hinv.wlSub cur (List.mem_cons_self _ _)
      have hinvR : BfsInv a root rest marked :=
        ⟨fun x hx => hinv.wlSub x (List.mem_cons_of_mem _ hx), hinv.rootMem,
         hinv.markedNodup, hinv.markedLt, hinv.reach⟩
      have hchildL : ∀ c, (getNode a cur).leftchildrenset = some c →
          c < a.length := fun c hc => (hcv cur c).1 hc
      have hchildR : ∀ c, (getNode a cur).rightchildrenset = some c →
          c < a.length := fun c hc => (hcv cur c).2 hc
      unfold isShortcutFuel at h
      split at h
      · simp only [Prod.mk.injEq, Option.some.injEq] at h
        obtain ⟨h1, h2, h3⟩ := h
        subst h1; subst h2; subst h3
        obtain ⟨l, hup, hnd, hmem⟩ := hinv.reach cur hcur
        exact ⟨Or.inl rfl, l, hup, hnd,
          fun y hy => hinv.markedLt y (hmem y hy)⟩
      · split at h
        · simp only [Prod.mk.injEq, Option.some.injEq] at h
          obtain ⟨h1, h2, h3⟩ := h
          subst h1; subst h2; subst h3
          obtain ⟨l, hup, hnd, hmem⟩ := hinv.reach cur hcur
          exact ⟨Or.inr rfl, l, hup, hnd,
            fun y hy => hinv.markedLt y (hmem y hy)⟩
        · split at h
          · rename_i a2 m2 l2 hb
            obtain ⟨he1, he2, he3⟩ :=
              (bfsChild_inv hinvR hcur hchildL).2 a2 m2 l2 hb
            simp only [Prod.mk.injEq, Option.some.injEq] at h
            obtain ⟨h1, h2, h3⟩ := h
            refine ⟨by rw [← h3]; exact he3, ?_⟩
            rw [← h1, he1, ← h2, he2]
            obtain ⟨l, hup, hnd, hmem⟩ := hinv.reach cur hcur
            exact ⟨l, hup, hnd, fun y hy => hinv.markedLt y (hmem y hy)⟩
          · rename_i a1 wl1 mk1 hb1
            obtain ⟨hinv1, hcur1, hlen1, hcomp1⟩ :=
              (bfsChild_inv hinvR hcur hchildL).1 a1 wl1 mk1 hb1
            have hcv1 : childrenValid a1 := by
              intro y j
              rw [hlen1]
              exact ⟨fun hj => (hcv y j).1 ((hcomp1 y j).1 hj),
                fun hj => (hcv y j).2 ((hcomp1 y j).2 hj)⟩
            have hchildR1 : ∀ c, (getNode a cur).rightchildrenset = some c →
                c < a1.length := by
              intro c hc
              rw [hlen1]
              exact hchildR c hc
            split at h
            · rename_i a2 m2 l2 hb2
              obtain ⟨he1, he2, he3⟩ :=
                (bfsChild_inv hinv1 hcur1 hchildR1).2 a2 m2 l2 hb2
              simp only [Prod.mk.injEq, Option.some.injEq] at h
              obtain ⟨h1, h2, h3⟩ := h
              refine ⟨by rw [← h3]; exact he3, ?_⟩
              rw [← h1, he1, ← h2, he2]
              obtain ⟨l, hup, hnd, hmem⟩ := hinv1.reach cur hcur1
              exact ⟨l, hup, hnd, fun y hy => hinv1.markedLt y (hmem y hy)⟩
            · rename_i a2 wl2 mk2 hb2
              obtain ⟨hinv2, hcur2, hlen2, hcomp2⟩ :=
                (bfsChild_inv hinv1 hcur1 hchildR1).1 a2 wl2 mk2 hb2
              have hcv2 : childrenValid a2 := by
                intro y j
                rw [hlen2]
                exact ⟨fun hj => (hcv1 y j).1 ((hcomp2 y j).1 hj),
                  fun hj => (hcv1 y j).2 ((hcomp2 y j).2 hj)⟩
              exact ih a2 wl2 mk2 a' mid ll hcv2 hinv2 h

theorem nodup_lt_length {l : List Nat} {n : Nat} (hnd : l.Nodup)
    (hb : ∀ x ∈ l, x < n) : l.length ≤ n := by
  have h := nodup_subset_length hnd
    (fun x hx => List.mem_range.mpr (hb x hx))
  simpa using h

theorem scPathWalk_ok {a : List ChainNode} {root : Nat} :
    ∀ (l : List Nat) (mid : Nat) (path : List Bool) (cnt fuel : Nat),
      UpPath a root mid l → l.length ≤ fuel + 1 →
      ∃ r, scPathWalk a root fuel mid path cnt = .ok r := by
  intro l mid path cnt fuel hup
  induction hup generalizing path cnt fuel with
  | refl =>
    intro _
    cases fuel with
    | zero => exact ⟨_, by unfold scPathWalk; rw [if_pos rfl]⟩
    | succ f => exact ⟨_, by unfold scPathWalk; rw [if_pos rfl]⟩
  | step hne hupl htl ih =>
    intro hlen
    cases fuel with
    | zero =>
      have hpos := UpPath_length_pos htl
      simp only [List.length_cons] at hlen
      omega
    | succ f =>
      obtain ⟨r, hr⟩ := ih _ (cnt + 1) f
        (by simp only [List.length_cons] at hlen; omega)
      refine ⟨r, ?_⟩
      unfold scPathWalk
      rw [if_neg hne, hupl]
      exact hr

theorem midsetWalk_ok {root : Nat} {a0 : List ChainNode} :
    ∀ (l : List Nat) (a : List ChainNode) (mid : Nat) (set : List Nat)
      (tot fuel : Nat),
      UpPath a0 root mid l →
      (∀ y, (getNode a y).uplink = (getNode a0 y).uplink) →
      l.length ≤ fuel + 1 →
      ∃ r, midsetWalk root fuel a mid set tot = .ok r := by
  intro l a mid set tot fuel hup
  induction hup generalizing a set tot fuel with
  | refl =>
    intro _ _
    cases fuel with
    | zero => exact ⟨_, by unfold midsetWalk; rw [if_pos rfl]⟩
    | succ f => exact ⟨_, by unfold midsetWalk; rw [if_pos rfl]⟩
  | step hne hupl htl ih =>
    intro hagree hlen
    cases fuel with
    | zero =>
      have hpos := UpPath_length_pos htl
      simp only [List.length_cons] at hlen
      omega
    | succ f =>
      rename_i i j l0
      have hupl2 : (getNode a i).uplink = some j := (hagree i).trans hupl
      have harena : ∀ y,
          (getNode (if (getNode a i).head = true then invalidateHead a i
            else a) y).uplink = (getNode a0 y).uplink := by
        intro y
        split
        · rw [invalidateHead_uplink]
          exact hagree y
        · exact hagree y
      obtain ⟨r, hr⟩ := ih
        (if (getNode a i).head = true then invalidateHead a i else a)
        (ChildrenSetInsert
          (if (getNode a i).head = true then
            ChildrenSetUnion set (getNode a i).SCmidnodeset
           else set) i)
        (if (getNode a i).head = true then tot + (getNode a i).SCnum else tot)
        f harena (by simp only [List.length_cons] at hlen; omega)
      refine ⟨r, ?_⟩
      unfold midsetWalk
      rw [if_neg hne, hupl2]
      exact hr

/-- C9: whenever the breadth-first pattern matcher of
`ChildrenSet::isShortcut` returns a midnode, the two subsequent back-link
walks — `getmySCpath` and `getallmidnodeset` — follow the uplinks the
search just installed all the way to the subtree root, so they both return
normally and the `getUplink should not be null` assertions never fire
(assuming the arena's child pointers are valid indices and the root is a
valid index, as holds for every constructed chain tree). -/
theorem c9_backlink_walks_reach_root (a : List ChainNode) (root key : Nat)
    (a' : List ChainNode) (mid : Nat) (ll : Int)
    (hroot : root < a.length) (hcv : childrenValidB a = true)
    (hfind : isShortcutFuel key (a.length + 1) a [root] [root]
      = (a', some (mid, ll))) :
    (∃ p, getmySCpath a' mid root ll = .ok p) ∧
    ∃ q, getallmidnodeset a' mid root = .ok q := by
  have hinv : BfsInv a root [root] [root] :=
    ⟨fun x hx => hx, List.mem_singleton.mpr rfl, List.nodup_singleton root,
     fun x hx => by rw [List.mem_singleton] at hx; subst hx; exact hroot,
     fun x hx => by
       rw [List.mem_singleton] at hx
       subst hx
       exact ⟨[x], UpPath.refl, List.nodup_singleton x, fun y hy => hy⟩⟩
  obtain ⟨hll, l, hup, hnd, hbound⟩ := isShortcut_reaches key root
    (a.length + 1) a [root] [root] a' mid ll (childrenValid_of_B hcv) hinv
    hfind
  have hlen : l.length ≤ a'.length := nodup_lt_length hnd hbound
  constructor
  · unfold getmySCpath
    rw [if_neg (by rcases hll with rfl | rfl <;> decide)]
    exact scPathWalk_ok l mid _ 1 (a'.length + 1) hup (by omega)
  · unfold getallmidnodeset
    exact midsetWalk_ok l a' mid [] 0 (a'.length + 1) hup (fun y => rfl)
      (by omega)

/-- C9, witness: the search of scenario B's right-subtree construction
(key `L`, root `B1`'s node) finds the midnode at the root and both walks
return normally on the resulting arena. -/
theorem c9_backlink_witness :
    (∃ p, getmySCpath wArena 0 0 1 = .ok p) ∧
    ∃ q, getallmidnodeset wArena 0 0 = .ok q :=
  c9_backlink_walks_reach_root wArena 0 2 wArena 0 1 (by decide) (by decide)
    (by rfl)

end Shortcut
